import Mathlib

/-!
# Verification of the vimdoku Sudoku domain engine

Shallow embedding of the typed-grid service (`GridSvc`), the solution
service (`SolutionService`: `check`, `#fillSolution`, `fromString`,
`toJSON`, `toString`) and the position algebra they use, together with
proofs and refutations of the specified properties.

JavaScript semantics are made explicit: a cell read `data[y][x]` on a
missing row `data[y]` throws a `TypeError` (modelled as `Except.error x`,
carrying the property index that the thrown message quotes), while a
missing column inside an existing row yields `undefined` (modelled as
`Option.none`).  `===` on possibly-undefined number values is modelled by
`BEq` on `Option Nat` (`undefined === undefined` is `true`).
-/

/-- A grid position.  The grid service uses `{ y, x }` coordinates
(`y` = row index, `x` = column index). -/
structure Pos where
  y : Nat
  x : Nat
deriving DecidableEq, Repr

namespace PosSvc

/-- Modelled from the spec: `PosSvc.getBoxFromPos` is not under `src/`;
the spec defines `box = (row / 3) * 3 + (col / 3)` with floor division. -/
def getBoxFromPos (p : Pos) : Nat :=
  p.y / 3 * 3 + p.x / 3

/-- Modelled from the spec: `PosSvc.equalsPos` is not under `src/`;
the spec defines `equals(a, b)` as row and col both equal. -/
def equalsPos (a b : Pos) : Bool :=
  a.y == b.y && a.x == b.x

/-- Modelled from the spec: `PosSvc.areRelated` is not under `src/`;
the spec defines `related(a, b)` as same row OR same col OR same box,
with no implicit self-exclusion (`mapRelated` in `src/unnamed/part_004`
guards with `!equalsPos && areRelated`, confirming that `areRelated`
alone does not exclude self). -/
def areRelated (a b : Pos) : Bool :=
  a.y == b.y || a.x == b.x || getBoxFromPos a == getBoxFromPos b

end PosSvc

/-- Modelled from the spec: `iterateMatrix` is not under `src/`; the spec
says whole-grid queries and `check` visit positions in row-major order,
so `iterateMatrix n` is the row-major list of the `n × n` positions. -/
def iterateMatrix (n : Nat) : List Pos :=
  (List.range n).flatMap fun y => (List.range n).map fun x => ⟨y, x⟩

/-- A typed 9×9 grid service.  The constructor of the source class merely
stores the provided two-dimensional array; despite its doc comment it
performs no shape validation, so `GridSvc.mk` is total. -/
structure GridSvc (T : Type) where
  data : List (List T)
deriving DecidableEq, Repr

/-- The data is exactly 9 rows of exactly 9 columns (the documented
grid invariant). -/
def shape9 {T : Type} (data : List (List T)) : Bool :=
  data.length == 9 && data.all fun row => row.length == 9

namespace GridSvc

variable {T U : Type}

/-- JavaScript read `this.#data[y][x]`: a missing row throws a
`TypeError` whose message reads the column property (`Except.error p.x`);
a missing column in an existing row yields `undefined` (`none`). -/
def getCellE (g : GridSvc T) (p : Pos) : Except Nat (Option T) :=
  match g.data.get? p.y with
  | none => .error p.x
  | some row => .ok (row.get? p.x)

/-- Pure cell lookup (`undefined`/missing collapse to `none`); used to
state properties, and agreeing with `getCellE` on well-shaped grids. -/
def cellAt (g : GridSvc T) (p : Pos) : Option T :=
  (g.data.get? p.y).bind fun row => row.get? p.x

/-- Loop body of `compareRelated` over the remaining row-major
positions: on each position related to `cellPos` it evaluates
`fn(this.getCell(cellPos), this.getCell(currPos), currPos)` and stops
with `false` at the first failing comparison. -/
def compareRelatedGo (g : GridSvc T) (cellPos : Pos)
    (fn : Option T → Option T → Pos → Bool) :
    List Pos → Except Nat Bool
  | [] => .ok true
  | currPos :: rest =>
    if PosSvc.areRelated cellPos currPos then
      match g.getCellE cellPos with
      | .error e => .error e
      | .ok a =>
        match g.getCellE currPos with
        | .error e => .error e
        | .ok b =>
          if fn a b currPos then compareRelatedGo g cellPos fn rest
          else .ok false
    else compareRelatedGo g cellPos fn rest

/-- Source `GridSvc.compareRelated` from `src/unnamed/part_004` lines 33–40:
iterates every position of the 9×9 matrix and tests `fn` on those
related to `cellPos` (no self-exclusion in the source). -/
def compareRelated (g : GridSvc T) (cellPos : Pos)
    (fn : Option T → Option T → Pos → Bool) : Except Nat Bool :=
  compareRelatedGo g cellPos fn (iterateMatrix 9)

/-- Trace of the positions at which `compareRelated` invokes `fn`, in
visitation order (an invocation happens only after both cell reads
succeed; the trace stops at the short-circuiting failure). -/
def compareRelatedCallsGo (g : GridSvc T) (cellPos : Pos)
    (fn : Option T → Option T → Pos → Bool) :
    List Pos → List Pos
  | [] => []
  | currPos :: rest =>
    if PosSvc.areRelated cellPos currPos then
      match g.getCellE cellPos with
      | .error _ => []
      | .ok a =>
        match g.getCellE currPos with
        | .error _ => []
        | .ok b =>
          if fn a b currPos then
            currPos :: compareRelatedCallsGo g cellPos fn rest
          else [currPos]
    else compareRelatedCallsGo g cellPos fn rest

/-- The positions at which `compareRelated g cellPos fn` invokes `fn`. -/
def compareRelatedCalls (g : GridSvc T) (cellPos : Pos)
    (fn : Option T → Option T → Pos → Bool) : List Pos :=
  compareRelatedCallsGo g cellPos fn (iterateMatrix 9)

/-- Cells of one row mapped with their positions (`row.map((cell, x) =>
mapFn(cell, { y, x }))`, with `x` counting from `x0`). -/
def mapCellsFrom (fn : T → Pos → U) (y : Nat) : Nat → List T → List U
  | _, [] => []
  | x, c :: cs => fn c ⟨y, x⟩ :: mapCellsFrom fn y (x + 1) cs

/-- Rows mapped with their indices (`data.map((row, y) => ...)`). -/
def mapRowsFrom (fn : T → Pos → U) : Nat → List (List T) → List (List U)
  | _, [] => []
  | y, r :: rs => mapCellsFrom fn y 0 r :: mapRowsFrom fn (y + 1) rs

/-- Source `GridSvc.#mapData` from `src/unnamed/part_004` lines 237–239. -/
def mapData (g : GridSvc T) (fn : T → Pos → U) : List (List U) :=
  mapRowsFrom fn 0 g.data

/-- The `data` getter: returns `this.#mapData(cell => cell)`. -/
def dataCopy (g : GridSvc T) : List (List T) :=
  g.mapData fun cell _ => cell

/-- Source `GridSvc.copy`: `new GridSvc(this.data)`. -/
def copy (g : GridSvc T) : GridSvc T :=
  ⟨g.dataCopy⟩

/-- Source `GridSvc.editCell` from `src/unnamed/part_004` lines 78–84: maps the
data, replacing exactly the positions equal to `cellPos` by
`fn(this.getCell(cellPos), cellPos)`.  At a matched position the mapped
cell is the cell stored at `cellPos`, so `this.getCell(cellPos)` is that
very cell (the source's TS union result type `Grid<T | U>` is
instantiated at a single carrier type). -/
def editCell (g : GridSvc T) (cellPos : Pos) (fn : T → Pos → T) : GridSvc T :=
  ⟨g.mapData fun cell pos =>
    if PosSvc.equalsPos cellPos pos then fn cell cellPos else cell⟩

/-- Conjunction over one row with positions
(`row.every((cell, x) => fn(cell, { y, x }))`). -/
def everyCellsFrom (fn : T → Pos → Bool) (y : Nat) : Nat → List T → Bool
  | _, [] => true
  | x, c :: cs => fn c ⟨y, x⟩ && everyCellsFrom fn y (x + 1) cs

/-- Conjunction over the rows with indices. -/
def everyRowsFrom (fn : T → Pos → Bool) : Nat → List (List T) → Bool
  | _, [] => true
  | y, r :: rs => everyCellsFrom fn y 0 r && everyRowsFrom fn (y + 1) rs

/-- Source `GridSvc.everyGrid` from `src/unnamed/part_004` lines 101–103:
`this.#data.every((row, y) => row.every((cell, x) => fn(cell, {y, x})))`. -/
def everyGrid (g : GridSvc T) (fn : T → Pos → Bool) : Bool :=
  everyRowsFrom fn 0 g.data

/-- Disjunction over one row with positions. -/
def someCellsFrom (fn : T → Pos → Bool) (y : Nat) : Nat → List T → Bool
  | _, [] => false
  | x, c :: cs => fn c ⟨y, x⟩ || someCellsFrom fn y (x + 1) cs

/-- Disjunction over the rows with indices. -/
def someRowsFrom (fn : T → Pos → Bool) : Nat → List (List T) → Bool
  | _, [] => false
  | y, r :: rs => someCellsFrom fn y 0 r || someRowsFrom fn (y + 1) rs

/-- Source `GridSvc.someGrid` from `src/unnamed/part_004` lines 214–216:
`this.#data.some((row, y) => row.some((cell, x) => fn(cell, {y, x})))`. -/
def someGrid (g : GridSvc T) (fn : T → Pos → Bool) : Bool :=
  someRowsFrom fn 0 g.data

end GridSvc

/-- The separators object handed to `joinGrid`.  A JavaScript object may
carry any of these properties; absent ones are `none`. -/
structure JoinSeps where
  col : Option String := none
  row : Option String := none
  x : Option String := none
  y : Option String := none

/-- Source `GridSvc.joinGrid` from `src/unnamed/part_004` lines 155–158:
destructures `{ x = '', y = '' }` from its separators argument and
returns `this.#data.map(Row => Row.join(y)).join(x)` (cells within a row
joined by the `y` separator, rows joined by the `x` separator; `join`
stringifies the number cells). -/
def GridSvc.joinGrid (g : GridSvc Nat) (seps : JoinSeps) : String :=
  String.intercalate (seps.x.getD "")
    (g.data.map fun r => String.intercalate (seps.y.getD "") (r.map toString))

/-- The message of the `TypeError` thrown by a cell read on a missing
row is `Cannot Read properties of undefined (reading 'x')`; the source's
`notArrayErrorMsgRgx` (`src/unnamed/part_003` lines 315–317) matches it
exactly when the quoted property is a single character `0`–`8`, i.e.
when the column index is below 9. -/
def notArrayErrorMsgMatches (x : Nat) : Bool :=
  x < 9

namespace SolutionService

/-- Loop of `SolutionService.check` over the remaining row-major
positions: returns `false` as soon as `compareRelated(pos, (comp,
current) => comp === current)` is `true`, propagating thrown errors. -/
def checkGo (g : GridSvc Nat) : List Pos → Except Nat Bool
  | [] => .ok true
  | p :: ps =>
    match g.compareRelated p (fun a b _ => a == b) with
    | .error e => .error e
    | .ok true => .ok false
    | .ok false => checkGo g ps

/-- The `try` block of `SolutionService.check`. -/
def checkRun (g : GridSvc Nat) : Except Nat Bool :=
  checkGo g (iterateMatrix 9)

/-- Source `SolutionService.check` from `src/unnamed/part_003` lines 343–352:
runs the loop and catches a `TypeError` whose message matches
`notArrayErrorMsgRgx`, returning `false`; any other error is rethrown. -/
def check (g : GridSvc Nat) : Except Nat Bool :=
  match checkRun g with
  | .ok b => .ok b
  | .error x => if notArrayErrorMsgMatches x then .ok false else .error x

end SolutionService

/-- Modelled from the spec: `box.row` is not under `src/`; the spec has
the generator walk the 3×3 sub-block relative to the box origin
(`boxOrigin.row = (row / 3) * 3`), so the `i`-th box cell's row is the
origin row plus `i / 3`. -/
def boxRowOf (i row : Nat) : Nat :=
  row / 3 * 3 + i / 3

/-- Modelled from the spec: `box.col` is not under `src/`; the `i`-th
box cell's column is the origin column `(col / 3) * 3` plus `i % 3`. -/
def boxColOf (i col : Nat) : Nat :=
  col / 3 * 3 + i % 3

/-- JavaScript read `value[y][x]` on a number matrix, collapsed to
`Option` (inside the generator every access is in range, so the
row-missing `TypeError` case never arises and is not distinguished). -/
def matGet (v : List (List Nat)) (y x : Nat) : Option Nat :=
  (v.get? y).bind fun row => row.get? x

/-- JavaScript write `value[y][x] = num`; the generator only writes
inside the existing 9×9 matrix, where `List.set` is the faithful
model. -/
def matSet (v : List (List Nat)) (p : Pos) (num : Nat) : List (List Nat) :=
  v.set p.y ((v.getD p.y []).set p.x num)

/-- Modelled from the spec: `createMatrix(9, () => 0)` builds the
initially all-empty 9×9 digit grid. -/
def emptyMat : List (List Nat) :=
  List.replicate 9 (List.replicate 9 0)

namespace SolutionService

/-- Source `SolutionService.#cellIsSafe` from `src/unnamed/part_003` lines
383–393: the cell must currently hold `0` and `num` must not appear in
its row, its column, or its box (scanned via `box.row`/`box.col`). -/
def cellIsSafe (value : List (List Nat)) (num : Nat) (p : Pos) : Bool :=
  matGet value p.y p.x == some 0 &&
    (List.range 9).all fun i =>
      !(matGet value p.y i == some num) &&
      !(matGet value i p.x == some num) &&
      !(matGet value (boxRowOf i p.y) (boxColOf i p.x) == some num)

/-- Source loop `for (const num of numbers) if (cellIsSafe(value, num, pos))
value[pos] = num` — after a successful placement the cell is no longer
`0`, so `cellIsSafe` rejects every later candidate. -/
def placeNums (value : List (List Nat)) (nums : List Nat) (p : Pos) :
    List (List Nat) :=
  nums.foldl (fun v num => if cellIsSafe v num p then matSet v p num else v) value

/-- Inner loop of `#fillSolution` for a fixed outer index `i`: `fuel`
counts the remaining inner indices (`fuel = 9 - j`), `k` indexes the
next `randomNumbers()` draw from the stream `draws`.  Each iteration
places a candidate at `(i, j)` using the fresh draw and at `(j, i)`
using the reversed draw; if either target cell is still `0` the whole
grid is discarded (`Except.error` carries the draw counter so the retry
continues with fresh draws). -/
def innerGo (draws : Nat → List Nat) (i : Nat) :
    Nat → List (List Nat) → Nat → Nat → Except Nat (List (List Nat) × Nat)
  | 0, v, _, k => .ok (v, k)
  | fuel + 1, v, j, k =>
    let nums := draws k
    let v1 := placeNums v nums ⟨i, j⟩
    let v2 := placeNums v1 nums.reverse ⟨j, i⟩
    if matGet v2 i j == some 0 || matGet v2 j i == some 0 then .error (k + 1)
    else innerGo draws i fuel v2 (j + 1) (k + 1)

/-- Outer loop of `#fillSolution`: `fuel = 9 - i`. -/
def outerGo (draws : Nat → List Nat) :
    Nat → List (List Nat) → Nat → Nat → Except Nat (List (List Nat))
  | 0, v, _, _ => .ok v
  | fuel + 1, v, i, k =>
    match innerGo draws i (9 - i) v i k with
    | .ok (v', k') => outerGo draws fuel v' (i + 1) k'
    | .error k' => .error k'

/-- Source `SolutionService.#fillSolution` from `src/unnamed/part_003` lines
396–416, parameterised by the stream of `randomNumbers()` draws
(modelled from the spec: `randomNumbers` is not under `src/`; it yields
the digits 1–9 in a uniformly shuffled order) and by a restart budget:
the source restarts from scratch without bound (`retry()` resets the
grid and the outer index), so `none` models a run that has not
terminated within `restartFuel` attempts. -/
def fillSolution (draws : Nat → List Nat) :
    Nat → Nat → Option (List (List Nat))
  | 0, _ => none
  | restartFuel + 1, k =>
    match outerGo draws 9 emptyMat 0 k with
    | .ok v => some v
    | .error k' => fillSolution draws restartFuel k'

end SolutionService

/-- The `SolutionService` instance state: the private `#grid` field. -/
structure SolutionService where
  gridField : GridSvc Nat
deriving Repr

namespace SolutionService

/-- The `grid` getter: `return this.#grid.copy()`. -/
def grid (s : SolutionService) : GridSvc Nat :=
  s.gridField.copy

/-- Source `SolutionService.toJSON` from `src/unnamed/part_003` lines 418–420:
returns the grid's two-dimensional array value. -/
def toJSON (s : SolutionService) : List (List Nat) :=
  s.gridField.dataCopy

/-- Source `SolutionService.toString` from `src/unnamed/part_003` lines
422–426: requests `joinGrid` with a separators object holding the
properties `col = ' | '` and `row = '\n- - - + - - - + - - -\n'`
(`joinGrid` itself destructures the properties `x` and `y`). -/
def toString (s : SolutionService) : String :=
  s.grid.joinGrid { col := some " | ", row := some "\n- - - + - - - + - - -\n" }

end SolutionService

/-! ## JSON model

`JSON.parse` and `JSON.stringify` are host builtins; they are modelled
here for the value subset the solution service exchanges: numbers
(non-negative integers), strings without escapes, arrays, objects,
booleans and null.  The parser is fuel-indexed; `jsonParse` supplies a
fuel that the completeness lemmas below show is sufficient. -/

/-- A parsed JSON value. -/
inductive JsVal where
  | num (n : Nat)
  | str (s : String)
  | arr (elems : List JsVal)
  | obj (fields : List (String × JsVal))
  | bool (b : Bool)
  | null

/-- The opening-brace character (written by code point to keep braces
out of literals). -/
def lbraceChar : Char := Char.ofNat 123

/-- The closing-brace character. -/
def rbraceChar : Char := Char.ofNat 125

/-- JSON insignificant whitespace. -/
def isJsonWs (c : Char) : Bool :=
  c == ' ' || c == '\n' || c == '\t' || c == '\r'

/-- Drop leading JSON whitespace. -/
def skipWs : List Char → List Char
  | [] => []
  | c :: cs => if isJsonWs c then skipWs cs else c :: cs

/-- Accumulate a run of decimal digits into a number. -/
def digitsToNat (acc : Nat) : List Char → Nat × List Char
  | [] => (acc, [])
  | c :: cs =>
    if c.isDigit then digitsToNat (acc * 10 + (c.toNat - 48)) cs
    else (acc, c :: cs)

/-- Body of a JSON string after the opening quote (escape-free subset). -/
def parseStringChars : List Char → Option (List Char × List Char)
  | [] => none
  | c :: cs =>
    if c == '"' then some ([], cs)
    else
      match parseStringChars cs with
      | some (s, rest) => some (c :: s, rest)
      | none => none

mutual

/-- Parse one JSON value (fuel-indexed recursive descent). -/
def parseJsonValue : Nat → List Char → Option (JsVal × List Char)
  | 0, _ => none
  | fuel + 1, cs =>
    match skipWs cs with
    | [] => none
    | c :: rest =>
      if c == '[' then
        match parseJsonElems fuel rest with
        | some (vs, r) => some (.arr vs, r)
        | none => none
      else if c == lbraceChar then
        match parseJsonFields fuel rest with
        | some (fs, r) => some (.obj fs, r)
        | none => none
      else if c == '"' then
        match parseStringChars rest with
        | some (s, r) => some (.str ⟨s⟩, r)
        | none => none
      else if c.isDigit then
        let p := digitsToNat 0 (c :: rest)
        some (.num p.1, p.2)
      else if c == 't' then
        match rest with
        | 'r' :: 'u' :: 'e' :: r => some (.bool true, r)
        | _ => none
      else if c == 'f' then
        match rest with
        | 'a' :: 'l' :: 's' :: 'e' :: r => some (.bool false, r)
        | _ => none
      else if c == 'n' then
        match rest with
        | 'u' :: 'l' :: 'l' :: r => some (.null, r)
        | _ => none
      else none

/-- Parse the elements of an array after its `[`, including the
closing `]`. -/
def parseJsonElems : Nat → List Char → Option (List JsVal × List Char)
  | 0, _ => none
  | fuel + 1, cs =>
    match skipWs cs with
    | ']' :: rest => some ([], rest)
    | _ => parseJsonElemsNE fuel cs

/-- Parse a non-empty comma-separated element list up to the `]`. -/
def parseJsonElemsNE : Nat → List Char → Option (List JsVal × List Char)
  | 0, _ => none
  | fuel + 1, cs =>
    match parseJsonValue fuel cs with
    | none => none
    | some (v, r1) =>
      match skipWs r1 with
      | ']' :: r2 => some ([v], r2)
      | ',' :: r2 =>
        match parseJsonElemsNE fuel r2 with
        | some (vs, r3) => some (v :: vs, r3)
        | none => none
      | _ => none

/-- Parse the members of an object after its opening brace, including
the closing brace. -/
def parseJsonFields : Nat → List Char → Option (List (String × JsVal) × List Char)
  | 0, _ => none
  | fuel + 1, cs =>
    match skipWs cs with
    | [] => none
    | c :: rest =>
      if c == rbraceChar then some ([], rest)
      else parseJsonFieldsNE fuel (c :: rest)

/-- Parse a non-empty member list up to the closing brace. -/
def parseJsonFieldsNE : Nat → List Char → Option (List (String × JsVal) × List Char)
  | 0, _ => none
  | fuel + 1, cs =>
    match skipWs cs with
    | '"' :: rest =>
      match parseStringChars rest with
      | none => none
      | some (key, r1) =>
        match skipWs r1 with
        | ':' :: r2 =>
          match parseJsonValue fuel r2 with
          | none => none
          | some (v, r3) =>
            match skipWs r3 with
            | ',' :: r4 =>
              match parseJsonFieldsNE fuel r4 with
              | some (fs, r5) => some ((⟨key⟩, v) :: fs, r5)
              | none => none
            | c :: r4 =>
              if c == rbraceChar then some ([(⟨key⟩, v)], r4) else none
            | _ => none
        | _ => none
    | _ => none

end

/-- Model of `JSON.parse`: parse one value and require only whitespace after it.
The fuel `2 * length + 2` dominates the recursion depth (at least one
character is consumed per two nested calls). -/
def jsonParse (s : String) : Option JsVal :=
  match parseJsonValue (2 * s.length + 2) s.data with
  | some (v, rest) => if (skipWs rest).isEmpty then some v else none
  | none => none

/-- Character-level `JSON.stringify` of one number cell. -/
def encCell (d : Nat) : List Char :=
  (Nat.repr d).data

/-- Character-level encoding of a comma-separated cell list. -/
def encCells : List Nat → List Char
  | [] => []
  | [d] => encCell d
  | d :: ds => encCell d ++ ',' :: encCells ds

/-- Character-level encoding of one row, brackets included. -/
def encRow (r : List Nat) : List Char :=
  '[' :: (encCells r ++ [']'])

/-- Character-level encoding of a comma-separated row list. -/
def encRows : List (List Nat) → List Char
  | [] => []
  | [r] => encRow r
  | r :: rs => encRow r ++ ',' :: encRows rs

/-- Model of `JSON.stringify` of a number matrix (the canonical
`toJSON`-equivalent text of a solution: `JSON.stringify(solution)`
serialises `toJSON()`'s two-dimensional digit array, without spaces). -/
def stringifyMatrix (m : List (List Nat)) : String :=
  ⟨'[' :: (encRows m ++ [']'])⟩

/-- The JSON value of a number matrix. -/
def matVal (m : List (List Nat)) : JsVal :=
  .arr (m.map fun r => .arr (r.map JsVal.num))

/-- JavaScript read `data[y][x]` on a parsed JSON value, `undefined`
collapsed to `none`. -/
def jsCellGet (v : JsVal) (p : Pos) : Option JsVal :=
  match v with
  | .arr rows =>
    match rows.get? p.y with
    | some (.arr cells) => cells.get? p.x
    | _ => none
  | _ => none

/-- Error `InvalidSolutionError` (declared outside `src/`): per the spec it
carries the offending text and the underlying parse error as its
cause. -/
structure InvalidSolutionError where
  solutionLike : String
  cause : String
deriving DecidableEq, Repr

/-- The state of the `SolutionService` instance built by `fromString`:
the parsed JSON value is handed to the `GridSvc` constructor, which
stores it without any validation or conversion. -/
structure ParsedSolution where
  gridData : JsVal

/-- Source `SolutionService.fromString` from `src/unnamed/part_003` lines
367–374: `JSON.parse` the text and wrap the result in a grid and a
solution; any error thrown inside the `try` (in practice only the
`SyntaxError` of `JSON.parse`, since the grid constructor cannot throw)
is rethrown as `InvalidSolutionError` carrying the input text and the
cause. -/
def SolutionService.fromString (solutionLike : String) :
    Except InvalidSolutionError ParsedSolution :=
  match jsonParse solutionLike with
  | some v => .ok ⟨v⟩
  | none => .error ⟨solutionLike, "SyntaxError"⟩

/-! ## Concrete data -/

/-- A known-valid 9×9 Sudoku solution (also the grid the embedded
generator produces from the concrete draw stream below). -/
def validSolutionData : List (List Nat) :=
  [[5, 1, 3, 2, 4, 9, 6, 7, 8],
   [7, 8, 6, 5, 3, 1, 9, 4, 2],
   [4, 2, 9, 8, 7, 6, 3, 5, 1],
   [3, 9, 4, 1, 5, 2, 7, 8, 6],
   [1, 5, 8, 3, 6, 7, 4, 2, 9],
   [6, 7, 2, 9, 8, 4, 1, 3, 5],
   [8, 6, 7, 4, 1, 5, 2, 9, 3],
   [9, 3, 1, 7, 2, 8, 5, 6, 4],
   [2, 4, 5, 6, 9, 3, 8, 1, 7]]

/-- Grid `validSolutionData` with cell `(0, 1)` overwritten by the digit at
`(0, 0)`: two equal digits (`5`) in row 0. -/
def dupRowData : List (List Nat) :=
  [[5, 5, 3, 2, 4, 9, 6, 7, 8],
   [7, 8, 6, 5, 3, 1, 9, 4, 2],
   [4, 2, 9, 8, 7, 6, 3, 5, 1],
   [3, 9, 4, 1, 5, 2, 7, 8, 6],
   [1, 5, 8, 3, 6, 7, 4, 2, 9],
   [6, 7, 2, 9, 8, 4, 1, 3, 5],
   [8, 6, 7, 4, 1, 5, 2, 9, 3],
   [9, 3, 1, 7, 2, 8, 5, 6, 4],
   [2, 4, 5, 6, 9, 3, 8, 1, 7]]

/-- Grid `validSolutionData` with cell `(1, 0)` overwritten by the digit at
`(0, 1)`: two equal digits (`1`) in box 0 at cells `(0, 1)` and `(1, 0)`,
which share neither row nor column. -/
def dupBoxData : List (List Nat) :=
  [[5, 1, 3, 2, 4, 9, 6, 7, 8],
   [1, 8, 6, 5, 3, 1, 9, 4, 2],
   [4, 2, 9, 8, 7, 6, 3, 5, 1],
   [3, 9, 4, 1, 5, 2, 7, 8, 6],
   [1, 5, 8, 3, 6, 7, 4, 2, 9],
   [6, 7, 2, 9, 8, 4, 1, 3, 5],
   [8, 6, 7, 4, 1, 5, 2, 9, 3],
   [9, 3, 1, 7, 2, 8, 5, 6, 4],
   [2, 4, 5, 6, 9, 3, 8, 1, 7]]

/-- A malformed grid: nine rows, but the last row holds only eight
cells (a truncated serialised grid the `GridSvc` constructor accepted). -/
def truncatedRowData : List (List Nat) :=
  [[5, 1, 3, 2, 4, 9, 6, 7, 8],
   [7, 8, 6, 5, 3, 1, 9, 4, 2],
   [4, 2, 9, 8, 7, 6, 3, 5, 1],
   [3, 9, 4, 1, 5, 2, 7, 8, 6],
   [1, 5, 8, 3, 6, 7, 4, 2, 9],
   [6, 7, 2, 9, 8, 4, 1, 3, 5],
   [8, 6, 7, 4, 1, 5, 2, 9, 3],
   [9, 3, 1, 7, 2, 8, 5, 6, 4],
   [2, 4, 5, 6, 9, 3, 8]]

/-- A concrete stream of `randomNumbers()` draws (each a permutation of
the digits 1–9) under which the generator completes in a single pass,
producing `validSolutionData`. -/
def witnessDraws : List (List Nat) :=
  [[5, 2, 3, 8, 1, 7, 4, 6, 9], [1, 8, 2, 6, 9, 3, 5, 4, 7],
   [3, 6, 7, 1, 2, 8, 9, 4, 5], [2, 8, 5, 9, 1, 6, 7, 4, 3],
   [4, 2, 6, 7, 3, 5, 8, 9, 1], [9, 3, 4, 8, 5, 1, 7, 2, 6],
   [6, 1, 3, 9, 2, 8, 4, 7, 5], [5, 7, 1, 8, 6, 4, 3, 2, 9],
   [3, 1, 4, 6, 7, 5, 2, 8, 9], [8, 5, 4, 7, 1, 2, 6, 9, 3],
   [8, 6, 1, 9, 7, 3, 2, 4, 5], [5, 6, 3, 4, 7, 2, 9, 8, 1],
   [3, 2, 4, 7, 6, 9, 5, 1, 8], [2, 9, 8, 4, 3, 1, 5, 7, 6],
   [9, 1, 2, 7, 3, 4, 8, 6, 5], [4, 8, 2, 3, 6, 9, 7, 5, 1],
   [8, 1, 9, 5, 2, 7, 6, 4, 3], [1, 7, 4, 6, 9, 5, 8, 2, 3],
   [1, 8, 5, 6, 3, 9, 2, 4, 7], [1, 3, 2, 8, 4, 7, 6, 5, 9],
   [2, 9, 8, 6, 3, 4, 7, 5, 1], [2, 3, 5, 8, 4, 6, 9, 1, 7],
   [6, 5, 2, 3, 8, 1, 9, 4, 7], [1, 9, 2, 7, 8, 6, 5, 3, 4],
   [2, 1, 3, 8, 4, 6, 7, 9, 5], [4, 5, 6, 8, 1, 9, 7, 3, 2],
   [4, 2, 8, 3, 9, 1, 7, 6, 5], [3, 7, 2, 4, 9, 8, 5, 1, 6],
   [9, 3, 5, 8, 4, 2, 1, 6, 7], [2, 8, 3, 1, 6, 4, 9, 7, 5],
   [3, 9, 2, 6, 4, 8, 7, 1, 5], [8, 7, 5, 6, 3, 1, 2, 4, 9],
   [8, 4, 7, 3, 2, 9, 1, 5, 6], [7, 2, 8, 9, 1, 3, 4, 6, 5],
   [6, 3, 1, 8, 9, 7, 5, 4, 2], [3, 2, 5, 6, 8, 9, 1, 7, 4],
   [9, 8, 2, 1, 7, 4, 3, 6, 5], [9, 7, 1, 3, 5, 4, 8, 6, 2],
   [7, 1, 3, 2, 5, 8, 6, 4, 9], [4, 3, 6, 1, 8, 5, 9, 2, 7],
   [5, 1, 6, 3, 2, 7, 9, 8, 4], [6, 3, 8, 4, 1, 7, 2, 9, 5],
   [8, 1, 5, 2, 9, 4, 6, 3, 7], [6, 5, 8, 1, 2, 4, 3, 7, 9],
   [4, 2, 7, 3, 6, 5, 1, 8, 9]]

/-- The draw stream as a function of the draw counter. -/
def witnessDrawsFn (k : Nat) : List Nat :=
  witnessDraws.getD k []


/-- The row-major list of the positions related to `pos` (self
included, since `areRelated` does not exclude it). -/
def relatedPositions (pos : Pos) : List Pos :=
  (iterateMatrix 9).filter fun q => PosSvc.areRelated pos q

/-- Follows the spec's words (for comparison with the source's
`compareRelated`): evaluate `fn` for every position related to
`cellPos` *excluding* `cellPos` itself, in row-major order, with the
same short-circuit behaviour. -/
def GridSvc.compareRelatedSpec {T : Type} (g : GridSvc T) (cellPos : Pos)
    (fn : Option T → Option T → Pos → Bool) : Except Nat Bool :=
  GridSvc.compareRelatedGo g cellPos fn
    ((iterateMatrix 9).filter fun q => !PosSvc.equalsPos cellPos q)

/-- A character list that does not begin with a decimal digit (so a
digit run parsed immediately before it stops exactly there). -/
def notDigitStart (cs : List Char) : Prop :=
  ∀ c, cs.head? = some c → c.isDigit = false

/-- No two distinct related in-bounds cells of `v` hold the same
non-zero digit (the partial-grid safety invariant of the generator). -/
def MatNoConflict (v : List (List Nat)) : Prop :=
  ∀ a b : Pos, a.y < 9 → a.x < 9 → b.y < 9 → b.x < 9 → a ≠ b →
    PosSvc.areRelated a b = true → ∀ d, d ≠ 0 →
    matGet v a.y a.x = some d → matGet v b.y b.x ≠ some d

/-- Every in-bounds cell of `v` holds a digit at most 9 (0 = empty). -/
def MatBounded (v : List (List Nat)) : Prop :=
  ∀ a : Pos, a.y < 9 → a.x < 9 → ∃ d, matGet v a.y a.x = some d ∧ d ≤ 9

/-! ## Basic lemmas -/

theorem mem_iterateMatrix {n : Nat} {q : Pos} :
    q ∈ iterateMatrix n ↔ q.y < n ∧ q.x < n := by
  cases q with
  | mk y x =>
    simp only [iterateMatrix, List.mem_flatMap, List.mem_map, List.mem_range]
    constructor
    · rintro ⟨y', hy', x', hx', h⟩
      cases h
      exact ⟨hy', hx'⟩
    · rintro ⟨hy, hx⟩
      exact ⟨y, hy, x, hx, rfl⟩

theorem equalsPos_iff {a b : Pos} : PosSvc.equalsPos a b = true ↔ a = b := by
  cases a; cases b
  simp [PosSvc.equalsPos, Pos.mk.injEq, Bool.and_eq_true, Nat.beq_eq_true_eq]

theorem areRelated_self (p : Pos) : PosSvc.areRelated p p = true := by
  simp [PosSvc.areRelated]

theorem areRelated_symm {a b : Pos} (h : PosSvc.areRelated a b = true) :
    PosSvc.areRelated b a = true := by
  simp only [PosSvc.areRelated, Bool.or_eq_true, Nat.beq_eq_true_eq] at h ⊢
  omega

theorem shape9_iff {T : Type} {data : List (List T)} :
    shape9 data = true ↔ data.length = 9 ∧ ∀ r ∈ data, r.length = 9 := by
  simp [shape9, List.all_eq_true, Nat.beq_eq_true_eq]

theorem mapCellsFrom_get? {T U : Type} (fn : T → Pos → U) (y : Nat) :
    ∀ (cs : List T) (x0 i : Nat),
      (GridSvc.mapCellsFrom fn y x0 cs).get? i =
        (cs.get? i).map fun c => fn c ⟨y, x0 + i⟩
  | [], _, _ => by simp [GridSvc.mapCellsFrom]
  | c :: cs, x0, 0 => by simp [GridSvc.mapCellsFrom]
  | c :: cs, x0, i + 1 => by
    have h := mapCellsFrom_get? fn y cs (x0 + 1) i
    simp only [GridSvc.mapCellsFrom, List.get?_cons_succ, h]
    have : x0 + 1 + i = x0 + (i + 1) := by omega
    rw [this]

theorem mapRowsFrom_get? {T U : Type} (fn : T → Pos → U) :
    ∀ (rs : List (List T)) (y0 j : Nat),
      (GridSvc.mapRowsFrom fn y0 rs).get? j =
        (rs.get? j).map fun r => GridSvc.mapCellsFrom fn (y0 + j) 0 r
  | [], _, _ => by simp [GridSvc.mapRowsFrom]
  | r :: rs, y0, 0 => by simp [GridSvc.mapRowsFrom]
  | r :: rs, y0, j + 1 => by
    have h := mapRowsFrom_get? fn rs (y0 + 1) j
    simp only [GridSvc.mapRowsFrom, List.get?_cons_succ, h]
    have : y0 + 1 + j = y0 + (j + 1) := by omega
    rw [this]

theorem cellAt_mapData {T U : Type} (g : GridSvc T) (fn : T → Pos → U) (q : Pos) :
    (GridSvc.mk (g.mapData fn)).cellAt q = (g.cellAt q).map fun c => fn c q := by
  cases q with
  | mk y x =>
    simp only [GridSvc.cellAt, GridSvc.mapData]
    rw [mapRowsFrom_get?]
    cases g.data.get? y with
    | none => rfl
    | some r =>
      show (GridSvc.mapCellsFrom fn (0 + y) 0 r).get? x =
        (r.get? x).map fun c => fn c ⟨y, x⟩
      rw [mapCellsFrom_get?]
      simp only [Nat.zero_add]

theorem shape9_get {T : Type} {data : List (List T)} (hs : shape9 data = true)
    {p : Pos} (hy : p.y < 9) (hx : p.x < 9) :
    ∃ c, (data.get? p.y).bind (fun r => r.get? p.x) = some c := by
  obtain ⟨hlen, hrows⟩ := shape9_iff.mp hs
  cases hrow : data.get? p.y with
  | none =>
    rw [List.get?_eq_none] at hrow
    omega
  | some r =>
    have hr : r ∈ data := List.get?_mem hrow
    have hrlen : r.length = 9 := hrows r hr
    cases hcell : r.get? p.x with
    | none =>
      rw [List.get?_eq_none] at hcell
      omega
    | some c => exact ⟨c, hcell⟩

theorem mapCellsFrom_id {T : Type} (y : Nat) :
    ∀ (cs : List T) (x0 : Nat),
      GridSvc.mapCellsFrom (fun c _ => c) y x0 cs = cs
  | [], _ => rfl
  | c :: cs, x0 => by
    simp [GridSvc.mapCellsFrom, mapCellsFrom_id y cs (x0 + 1)]

theorem mapRowsFrom_id {T : Type} :
    ∀ (rs : List (List T)) (y0 : Nat),
      GridSvc.mapRowsFrom (fun (c : T) (_ : Pos) => c) y0 rs = rs
  | [], _ => rfl
  | r :: rs, y0 => by
    simp [GridSvc.mapRowsFrom, mapCellsFrom_id, mapRowsFrom_id rs (y0 + 1)]

theorem dataCopy_eq {T : Type} (g : GridSvc T) : g.dataCopy = g.data :=
  mapRowsFrom_id g.data 0

theorem copy_eq {T : Type} (g : GridSvc T) : g.copy = g := by
  cases g
  simp [GridSvc.copy, dataCopy_eq]

/-- Claim C7: single-cell edit frame property: `editCell(pos, fn)` yields
a grid whose cell at `pos` is `fn` of the previous value there, every
other position is unchanged, and (the embedding being pure) the receiver
is observably unchanged. -/
theorem editCell_frame {T : Type} (g : GridSvc T) (pos : Pos) (fn : T → Pos → T)
    (hy : pos.y < 9) (hx : pos.x < 9) (hs : shape9 g.data = true) :
    (∃ c, g.cellAt pos = some c ∧
      (g.editCell pos fn).cellAt pos = some (fn c pos))
    ∧ ∀ q, q ≠ pos → (g.editCell pos fn).cellAt q = g.cellAt q := by
  have hmap := cellAt_mapData g
    (fun cell q => if PosSvc.equalsPos pos q then fn cell pos else cell)
  constructor
  · obtain ⟨c, hc⟩ := shape9_get hs hy hx
    refine ⟨c, hc, ?_⟩
    have h := hmap pos
    rw [GridSvc.editCell, h]
    have : g.cellAt pos = some c := hc
    rw [this, Option.map_some']
    simp [equalsPos_iff.mpr rfl]
  · intro q hq
    have h := hmap q
    rw [GridSvc.editCell, h]
    have hne : PosSvc.equalsPos pos q = false := by
      by_contra hcon
      have := equalsPos_iff.mp (by
        cases hval : PosSvc.equalsPos pos q
        · exact absurd hval hcon
        · rfl)
      exact hq this.symm
    cases g.cellAt q <;> simp [hne]

/-- Witness for C7 at a concrete grid, position and function. -/
theorem editCell_frame_witness :
    ((⟨validSolutionData⟩ : GridSvc Nat).editCell ⟨2, 3⟩ (fun d _ => d + 1)).cellAt ⟨0, 0⟩ =
      (⟨validSolutionData⟩ : GridSvc Nat).cellAt ⟨0, 0⟩ :=
  (editCell_frame ⟨validSolutionData⟩ ⟨2, 3⟩ (fun d _ => d + 1)
    (by decide) (by decide) (by decide)).2 ⟨0, 0⟩ (by decide)

theorem someCellsFrom_eq_not_every {T : Type} (fn : T → Pos → Bool) (y : Nat) :
    ∀ (cs : List T) (x : Nat),
      GridSvc.someCellsFrom fn y x cs =
        !GridSvc.everyCellsFrom (fun c p => !(fn c p)) y x cs
  | [], _ => rfl
  | c :: cs, x => by
    simp [GridSvc.someCellsFrom, GridSvc.everyCellsFrom,
      someCellsFrom_eq_not_every fn y cs (x + 1), Bool.not_and, Bool.not_not]

theorem someRowsFrom_eq_not_every {T : Type} (fn : T → Pos → Bool) :
    ∀ (rs : List (List T)) (y : Nat),
      GridSvc.someRowsFrom fn y rs =
        !GridSvc.everyRowsFrom (fun c p => !(fn c p)) y rs
  | [], _ => rfl
  | r :: rs, y => by
    simp [GridSvc.someRowsFrom, GridSvc.everyRowsFrom,
      someCellsFrom_eq_not_every, someRowsFrom_eq_not_every fn rs (y + 1),
      Bool.not_and, Bool.not_not]

theorem everyCellsFrom_eq_true_iff {T : Type} (fn : T → Pos → Bool) (y : Nat) :
    ∀ (cs : List T) (x : Nat),
      GridSvc.everyCellsFrom fn y x cs = true ↔
        ∀ i c, cs.get? i = some c → fn c ⟨y, x + i⟩ = true
  | [], x => by simp [GridSvc.everyCellsFrom]
  | c :: cs, x => by
    rw [GridSvc.everyCellsFrom, Bool.and_eq_true,
      everyCellsFrom_eq_true_iff fn y cs (x + 1)]
    constructor
    · rintro ⟨h0, hrest⟩ i d hd
      cases i with
      | zero =>
        cases hd
        simpa using h0
      | succ i =>
        have := hrest i d hd
        have hx : x + 1 + i = x + (i + 1) := by omega
        rwa [hx] at this
    · intro h
      refine ⟨by simpa using h 0 c rfl, fun i d hd => ?_⟩
      have := h (i + 1) d hd
      have hx : x + 1 + i = x + (i + 1) := by omega
      rwa [hx]

theorem everyRowsFrom_eq_true_iff {T : Type} (fn : T → Pos → Bool) :
    ∀ (rs : List (List T)) (y : Nat),
      GridSvc.everyRowsFrom fn y rs = true ↔
        ∀ j r, rs.get? j = some r →
          GridSvc.everyCellsFrom fn (y + j) 0 r = true
  | [], y => by simp [GridSvc.everyRowsFrom]
  | r :: rs, y => by
    rw [GridSvc.everyRowsFrom, Bool.and_eq_true,
      everyRowsFrom_eq_true_iff fn rs (y + 1)]
    constructor
    · rintro ⟨h0, hrest⟩ j s hs
      cases j with
      | zero =>
        cases hs
        simpa using h0
      | succ j =>
        have := hrest j s hs
        have hy : y + 1 + j = y + (j + 1) := by omega
        rwa [hy] at this
    · intro h
      refine ⟨by simpa using h 0 r rfl, fun j s hs => ?_⟩
      have := h (j + 1) s hs
      have hy : y + 1 + j = y + (j + 1) := by omega
      rwa [hy]

theorem everyGrid_iff_cells {T : Type} (g : GridSvc T) (fn : T → Pos → Bool) :
    g.everyGrid fn = true ↔ ∀ q c, g.cellAt q = some c → fn c q = true := by
  rw [GridSvc.everyGrid, everyRowsFrom_eq_true_iff]
  constructor
  · intro h q c hq
    cases q with
    | mk y x =>
      simp only [GridSvc.cellAt] at hq
      cases hrow : g.data.get? y with
      | none => rw [hrow] at hq; cases hq
      | some r =>
        rw [hrow] at hq
        have h1 := (everyCellsFrom_eq_true_iff fn (0 + y) r 0).mp (h y r hrow) x c hq
        simpa using h1
  · intro h j r hr
    rw [everyCellsFrom_eq_true_iff]
    intro i c hc
    refine h ⟨0 + j, 0 + i⟩ c ?_
    simp only [GridSvc.cellAt, Nat.zero_add]
    rw [hr]
    exact hc

theorem someGrid_iff_cells {T : Type} (g : GridSvc T) (fn : T → Pos → Bool) :
    g.someGrid fn = true ↔ ∃ q c, g.cellAt q = some c ∧ fn c q = true := by
  have hdual : g.someGrid fn = !GridSvc.everyGrid g (fun c p => !fn c p) :=
    someRowsFrom_eq_not_every fn g.data 0
  rw [hdual, Bool.not_eq_true']
  constructor
  · intro h
    by_contra hcon
    have htrue : GridSvc.everyGrid g (fun c p => !fn c p) = true := by
      rw [everyGrid_iff_cells]
      intro q c hq
      show (!fn c q) = true
      cases hval : fn c q
      · rfl
      · exact absurd ⟨q, c, hq, hval⟩ hcon
    rw [htrue] at h
    cases h
  · rintro ⟨q, c, hq, hfn⟩
    cases hevery : GridSvc.everyGrid g (fun c p => !fn c p) with
    | false => rfl
    | true =>
      have hcontr := (everyGrid_iff_cells g (fun c p => !fn c p)).mp hevery q c hq
      have hcontr2 : (!fn c q) = true := hcontr
      rw [hfn] at hcontr2
      cases hcontr2

theorem cellAt_some_bounds {T : Type} {g : GridSvc T} {q : Pos} {c : T}
    (hs : shape9 g.data = true) (h : g.cellAt q = some c) :
    q.y < 9 ∧ q.x < 9 := by
  obtain ⟨hlen, hrows⟩ := shape9_iff.mp hs
  simp only [GridSvc.cellAt] at h
  cases hrow : g.data.get? q.y with
  | none => rw [hrow] at h; cases h
  | some r =>
    rw [hrow] at h
    have hcell : r.get? q.x = some c := h
    have hy : ¬ g.data.length ≤ q.y := fun hle => by
      rw [List.get?_eq_none.mpr hle] at hrow; cases hrow
    have hx : ¬ r.length ≤ q.x := fun hle => by
      rw [List.get?_eq_none.mpr hle] at hcell; cases hcell
    have := hrows r (List.get?_mem hrow)
    omega

/-- Claim C10: quantifier duality of the whole-grid queries: `someGrid p`
is the negation of `everyGrid` of the pointwise-negated predicate, and on
a well-shaped grid `someGrid` (resp. `everyGrid`) holds iff the predicate
holds at at least one (resp. every one) of the 81 cells. -/
theorem someGrid_everyGrid_duality {T : Type} (g : GridSvc T) (p : T → Pos → Bool) :
    g.someGrid p = !g.everyGrid (fun c pos => !(p c pos))
    ∧ (shape9 g.data = true →
        ((g.someGrid p = true ↔
            ∃ q, q ∈ iterateMatrix 9 ∧ ∃ c, g.cellAt q = some c ∧ p c q = true)
          ∧ (g.everyGrid p = true ↔
            ∀ q, q ∈ iterateMatrix 9 → ∀ c, g.cellAt q = some c → p c q = true))) := by
  refine ⟨someRowsFrom_eq_not_every p g.data 0, fun hs => ⟨?_, ?_⟩⟩
  · rw [someGrid_iff_cells]
    constructor
    · rintro ⟨q, c, hq, hp⟩
      have hb := cellAt_some_bounds hs hq
      exact ⟨q, mem_iterateMatrix.mpr hb, c, hq, hp⟩
    · rintro ⟨q, _, c, hq, hp⟩
      exact ⟨q, c, hq, hp⟩
  · rw [everyGrid_iff_cells]
    constructor
    · intro h q _ c hq
      exact h q c hq
    · intro h q c hq
      have hb := cellAt_some_bounds hs hq
      exact h q (mem_iterateMatrix.mpr hb) c hq

/-- Witness for C10 at a concrete grid and predicate. -/
theorem someGrid_everyGrid_duality_witness :
    (⟨validSolutionData⟩ : GridSvc Nat).someGrid (fun c _ => c == 5) = true ↔
      ∃ q, q ∈ iterateMatrix 9 ∧
        ∃ c, (⟨validSolutionData⟩ : GridSvc Nat).cellAt q = some c ∧ (c == 5) = true :=
  ((someGrid_everyGrid_duality ⟨validSolutionData⟩ (fun c _ => c == 5)).2 (by decide)).1

/-- Claim C1 (code bug): `check` evaluates
`compareRelated(pos, (comp, current) => comp === current)`, which is
`true` only when *every* related cell equals the cell at `pos`; a single
duplicated pair therefore never triggers the `return false` branch.  A
known-valid solution passes (its duplicate digits lie only in pairwise
unrelated cells), but so do the row-duplicate and box-duplicate
single-cell corruptions of it, contradicting the validator contract. -/
theorem check_accepts_duplicate_grids :
    SolutionService.check ⟨validSolutionData⟩ = .ok true
    ∧ dupRowData = ((⟨validSolutionData⟩ : GridSvc Nat).editCell ⟨0, 1⟩ fun _ _ => 5).data
    ∧ (⟨dupRowData⟩ : GridSvc Nat).cellAt ⟨0, 0⟩ = some 5
    ∧ (⟨dupRowData⟩ : GridSvc Nat).cellAt ⟨0, 1⟩ = some 5
    ∧ SolutionService.check ⟨dupRowData⟩ = .ok true
    ∧ dupBoxData = ((⟨validSolutionData⟩ : GridSvc Nat).editCell ⟨1, 0⟩ fun _ _ => 1).data
    ∧ (⟨dupBoxData⟩ : GridSvc Nat).cellAt ⟨0, 1⟩ = some 1
    ∧ (⟨dupBoxData⟩ : GridSvc Nat).cellAt ⟨1, 0⟩ = some 1
    ∧ PosSvc.getBoxFromPos ⟨0, 1⟩ = PosSvc.getBoxFromPos ⟨1, 0⟩
    ∧ SolutionService.check ⟨dupBoxData⟩ = .ok true :=
  ⟨rfl, rfl, rfl, rfl, rfl, rfl, rfl, rfl, rfl, rfl⟩

/-- Claim C5 (code bug): `fromString("not json")` raises
`InvalidSolutionError` carrying the input text and the parse failure,
but `fromString("{}")` succeeds: `JSON.parse` accepts it and the grid
constructor stores the empty object without any shape validation, so no
error is ever raised for structurally wrong JSON. -/
theorem fromString_wrong_shape_not_rejected :
    SolutionService.fromString "not json" = .error ⟨"not json", "SyntaxError"⟩
    ∧ SolutionService.fromString "\x7b\x7d" = .ok ⟨JsVal.obj []⟩ :=
  ⟨rfl, rfl⟩

/-- Claim C6 (code bug): the `GridSvc` constructor stores whatever data
it is given: a one-row matrix is not 9×9, yet construction succeeds and
the malformed data is observable through the `data` getter, contradicting
the constructor's documented shape error. -/
theorem gridSvc_constructor_skips_validation :
    shape9 ([[1, 2, 3]] : List (List Nat)) = false
    ∧ (GridSvc.mk [[1, 2, 3]] : GridSvc Nat).data = [[1, 2, 3]]
    ∧ (GridSvc.mk [[1, 2, 3]] : GridSvc Nat).dataCopy = [[1, 2, 3]] :=
  ⟨rfl, rfl, rfl⟩

/-- Claim C9 (code bug): `toString` hands `joinGrid` a separators object
with properties `col` and `row`, but `joinGrid` destructures the
properties `x` and `y`; both default to the empty string, so the result
is the bare 81-character digit concatenation, not the documented
separator layout. -/
theorem toString_drops_separators :
    SolutionService.toString ⟨⟨validSolutionData⟩⟩ =
      "513249678786531942429876351394152786158367429672984135867415293931728564245693817"
    ∧ (SolutionService.toString ⟨⟨validSolutionData⟩⟩).length = 81 :=
  ⟨rfl, rfl⟩

/-- Counterexample to C3: the source's `compareRelated` invokes `fn`
at `cellPos` itself (first conjunct: at a function that fails exactly at
the anchor position, the result is `false` where the spec's
self-excluding reading yields `true`; third conjunct: the anchor appears
in the invocation trace). -/
theorem compareRelated_includes_self_counterexample :
    (⟨validSolutionData⟩ : GridSvc Nat).compareRelated ⟨0, 0⟩
        (fun _ _ q => !PosSvc.equalsPos ⟨0, 0⟩ q) = .ok false
    ∧ (⟨validSolutionData⟩ : GridSvc Nat).compareRelatedSpec ⟨0, 0⟩
        (fun _ _ q => !PosSvc.equalsPos ⟨0, 0⟩ q) = .ok true
    ∧ ⟨0, 0⟩ ∈ (⟨validSolutionData⟩ : GridSvc Nat).compareRelatedCalls ⟨0, 0⟩
        (fun _ _ q => !PosSvc.equalsPos ⟨0, 0⟩ q) := by
  refine ⟨rfl, rfl, ?_⟩
  decide

theorem getCellE_eq_ok {T : Type} {g : GridSvc T} (hs : shape9 g.data = true)
    {q : Pos} (hy : q.y < 9) : g.getCellE q = .ok (g.cellAt q) := by
  obtain ⟨hlen, _⟩ := shape9_iff.mp hs
  cases hrow : g.data.get? q.y with
  | none =>
    exfalso
    rw [List.get?_eq_none] at hrow
    omega
  | some r =>
    simp only [GridSvc.getCellE, GridSvc.cellAt, hrow]
    rfl

theorem compareRelatedGo_eq {T : Type} (g : GridSvc T) (pos : Pos)
    (fn : Option T → Option T → Pos → Bool)
    (hs : shape9 g.data = true) (hy : pos.y < 9) :
    ∀ qs : List Pos, (∀ q ∈ qs, q.y < 9) →
      GridSvc.compareRelatedGo g pos fn qs =
        .ok (((qs.filter fun q => PosSvc.areRelated pos q).all
          fun q => fn (g.cellAt pos) (g.cellAt q) q))
      ∧ GridSvc.compareRelatedCallsGo g pos fn qs =
        ((qs.filter fun q => PosSvc.areRelated pos q).takeWhile
            fun q => fn (g.cellAt pos) (g.cellAt q) q)
          ++ (((qs.filter fun q => PosSvc.areRelated pos q).dropWhile
            fun q => fn (g.cellAt pos) (g.cellAt q) q).take 1)
  | [], _ => ⟨rfl, rfl⟩
  | q :: qs, hq => by
    have hqy : q.y < 9 := hq q (List.mem_cons_self q qs)
    have ih := compareRelatedGo_eq g pos fn hs hy qs
      (fun r hr => hq r (List.mem_cons_of_mem q hr))
    cases hrel : PosSvc.areRelated pos q with
    | false =>
      have e1 : GridSvc.compareRelatedGo g pos fn (q :: qs) =
          GridSvc.compareRelatedGo g pos fn qs := by
        simp [GridSvc.compareRelatedGo, hrel]
      have e2 : GridSvc.compareRelatedCallsGo g pos fn (q :: qs) =
          GridSvc.compareRelatedCallsGo g pos fn qs := by
        simp [GridSvc.compareRelatedCallsGo, hrel]
      rw [e1, e2,
        List.filter_cons_of_neg (p := fun r => PosSvc.areRelated pos r)
          (by simp [hrel])]
      exact ih
    | true =>
      have hgp := getCellE_eq_ok hs hy (g := g) (q := pos)
      have hgq := getCellE_eq_ok hs hqy (g := g) (q := q)
      cases hP : fn (g.cellAt pos) (g.cellAt q) q with
      | true =>
        have e1 : GridSvc.compareRelatedGo g pos fn (q :: qs) =
            GridSvc.compareRelatedGo g pos fn qs := by
          simp [GridSvc.compareRelatedGo, hrel, hgp, hgq, hP]
        have e2 : GridSvc.compareRelatedCallsGo g pos fn (q :: qs) =
            q :: GridSvc.compareRelatedCallsGo g pos fn qs := by
          simp [GridSvc.compareRelatedCallsGo, hrel, hgp, hgq, hP]
        rw [e1, e2,
          List.filter_cons_of_pos (p := fun r => PosSvc.areRelated pos r) hrel,
          List.all_cons, hP, Bool.true_and,
          List.takeWhile_cons_of_pos
            (p := fun r => fn (g.cellAt pos) (g.cellAt r) r) hP,
          List.dropWhile_cons_of_pos
            (p := fun r => fn (g.cellAt pos) (g.cellAt r) r) hP,
          ih.2, List.cons_append]
        exact ⟨ih.1, rfl⟩
      | false =>
        have e1 : GridSvc.compareRelatedGo g pos fn (q :: qs) = .ok false := by
          simp [GridSvc.compareRelatedGo, hrel, hgp, hgq, hP]
        have e2 : GridSvc.compareRelatedCallsGo g pos fn (q :: qs) = [q] := by
          simp [GridSvc.compareRelatedCallsGo, hrel, hgp, hgq, hP]
        rw [e1, e2,
          List.filter_cons_of_pos (p := fun r => PosSvc.areRelated pos r) hrel,
          List.all_cons, hP, Bool.false_and,
          List.takeWhile_cons_of_neg
            (p := fun r => fn (g.cellAt pos) (g.cellAt r) r) (by simp [hP]),
          List.dropWhile_cons_of_neg
            (p := fun r => fn (g.cellAt pos) (g.cellAt r) r) (by simp [hP])]
        exact ⟨rfl, rfl⟩

/-- Claim C3 (amended): `compareRelated(pos, fn)` invokes `fn` exactly on
the positions related to `pos` *including* `pos` itself (which is always
related to itself), in row-major visitation order, short-circuiting at
the first failing position; it returns `true` iff `fn` holds at every
related position.  The invocation trace equals the passing prefix plus
the first failing position, and `pos` belongs to the related set. -/
theorem compareRelated_contract {T : Type} (g : GridSvc T) (pos : Pos)
    (fn : Option T → Option T → Pos → Bool)
    (hs : shape9 g.data = true) (hy : pos.y < 9) (hx : pos.x < 9) :
    pos ∈ relatedPositions pos
    ∧ g.compareRelated pos fn =
        .ok ((relatedPositions pos).all fun q => fn (g.cellAt pos) (g.cellAt q) q)
    ∧ g.compareRelatedCalls pos fn =
        ((relatedPositions pos).takeWhile fun q => fn (g.cellAt pos) (g.cellAt q) q)
          ++ (((relatedPositions pos).dropWhile
            fun q => fn (g.cellAt pos) (g.cellAt q) q).take 1) := by
  have h := compareRelatedGo_eq g pos fn hs hy (iterateMatrix 9)
    (fun q hq => (mem_iterateMatrix.mp hq).1)
  refine ⟨?_, h.1, h.2⟩
  rw [relatedPositions, List.mem_filter]
  exact ⟨mem_iterateMatrix.mpr ⟨hy, hx⟩, areRelated_self pos⟩

/-- Witness for the amended C3 at a concrete grid, position and
comparison function. -/
theorem compareRelated_contract_witness :
    (⟨validSolutionData⟩ : GridSvc Nat).compareRelated ⟨4, 4⟩ (fun a b _ => a == b) =
      .ok ((relatedPositions ⟨4, 4⟩).all fun q =>
        ((⟨validSolutionData⟩ : GridSvc Nat).cellAt ⟨4, 4⟩ ==
          (⟨validSolutionData⟩ : GridSvc Nat).cellAt q)) :=
  (compareRelated_contract ⟨validSolutionData⟩ ⟨4, 4⟩ (fun a b _ => a == b)
    (by decide) (by decide) (by decide)).2.1

theorem getCellE_error {T : Type} {g : GridSvc T} {p : Pos} {e : Nat}
    (h : g.getCellE p = .error e) : e = p.x := by
  rw [GridSvc.getCellE] at h
  cases hrow : g.data.get? p.y with
  | none =>
    rw [hrow] at h
    exact (Except.error.inj h).symm
  | some r =>
    rw [hrow] at h
    exact Except.noConfusion h

theorem compareRelatedGo_error_lt {T : Type} (g : GridSvc T) (pos : Pos)
    (fn : Option T → Option T → Pos → Bool) (hx : pos.x < 9) :
    ∀ qs : List Pos, (∀ q ∈ qs, q.x < 9) →
      ∀ e, GridSvc.compareRelatedGo g pos fn qs = .error e → e < 9
  | [], _, e, h => Except.noConfusion h
  | q :: qs, hq, e, h => by
    have hqx : q.x < 9 := hq q (List.mem_cons_self q qs)
    have ihq : ∀ q ∈ qs, q.x < 9 := fun r hr => hq r (List.mem_cons_of_mem q hr)
    rw [GridSvc.compareRelatedGo] at h
    by_cases hrel : PosSvc.areRelated pos q = true
    · rw [if_pos hrel] at h
      cases hgp : g.getCellE pos with
      | error e' =>
        simp only [hgp] at h
        have := getCellE_error hgp
        have := Except.error.inj h
        omega
      | ok a =>
        simp only [hgp] at h
        cases hgq : g.getCellE q with
        | error e' =>
          simp only [hgq] at h
          have := getCellE_error hgq
          have := Except.error.inj h
          omega
        | ok b =>
          simp only [hgq] at h
          by_cases hfn : fn a b q = true
          · rw [if_pos hfn] at h
            exact compareRelatedGo_error_lt g pos fn hx qs ihq e h
          · rw [if_neg hfn] at h
            exact Except.noConfusion h
    · rw [if_neg hrel] at h
      exact compareRelatedGo_error_lt g pos fn hx qs ihq e h

theorem compareRelated_missing_row {T : Type} (g : GridSvc T)
    (fn : Option T → Option T → Pos → Bool) :
    g.compareRelated ⟨g.data.length, 0⟩ fn = .error 0 := by
  rw [GridSvc.compareRelated,
    show iterateMatrix 9 = ⟨0, 0⟩ :: List.drop 1 (iterateMatrix 9) from rfl,
    GridSvc.compareRelatedGo]
  have hrel : PosSvc.areRelated ⟨g.data.length, 0⟩ ⟨0, 0⟩ = true := by
    simp [PosSvc.areRelated]
  rw [if_pos hrel]
  have hget : g.getCellE ⟨g.data.length, 0⟩ = .error 0 := by
    rw [GridSvc.getCellE, List.get?_eq_none.mpr (Nat.le_refl _)]
  rw [hget]

theorem checkGo_error_lt (g : GridSvc Nat) :
    ∀ ps : List Pos, (∀ p ∈ ps, p.x < 9) →
      ∀ e, SolutionService.checkGo g ps = .error e → e < 9
  | [], _, e, h => Except.noConfusion h
  | p :: ps, hp, e, h => by
    have hpx : p.x < 9 := hp p (List.mem_cons_self p ps)
    have ihp : ∀ q ∈ ps, q.x < 9 := fun r hr => hp r (List.mem_cons_of_mem p hr)
    rw [SolutionService.checkGo] at h
    cases hcr : g.compareRelated p (fun a b _ => a == b) with
    | error e' =>
      rw [hcr] at h
      have he' : e' < 9 :=
        compareRelatedGo_error_lt g p (fun a b _ => a == b) hpx (iterateMatrix 9)
          (fun q hq => (mem_iterateMatrix.mp hq).2) e' hcr
      have := Except.error.inj h
      omega
    | ok b =>
      rw [hcr] at h
      cases b with
      | true => exact Except.noConfusion h
      | false => exact checkGo_error_lt g ps ihp e h

theorem checkGo_mem_result (g : GridSvc Nat) {tpos : Pos} {et : Nat}
    (htpos : g.compareRelated tpos (fun a b _ => a == b) = .error et) :
    ∀ ps : List Pos, (∀ p ∈ ps, p.x < 9) → tpos ∈ ps →
      SolutionService.checkGo g ps = .ok false ∨
        ∃ e, e < 9 ∧ SolutionService.checkGo g ps = .error e
  | [], _, hmem => absurd hmem (List.not_mem_nil tpos)
  | p :: ps, hp, hmem => by
    have hpx : p.x < 9 := hp p (List.mem_cons_self p ps)
    have ihp : ∀ q ∈ ps, q.x < 9 := fun r hr => hp r (List.mem_cons_of_mem p hr)
    rw [SolutionService.checkGo]
    cases hcr : g.compareRelated p (fun a b _ => a == b) with
    | error e' =>
      refine Or.inr ⟨e', ?_, rfl⟩
      exact compareRelatedGo_error_lt g p (fun a b _ => a == b) hpx (iterateMatrix 9)
        (fun q hq => (mem_iterateMatrix.mp hq).2) e' hcr
    | ok b =>
      cases b with
      | true => exact Or.inl rfl
      | false =>
        have hne : p ≠ tpos := by
          intro hcontr
          rw [hcontr, htpos] at hcr
          exact Except.noConfusion hcr
        have hmem' : tpos ∈ ps := by
          cases List.mem_cons.mp hmem with
          | inl h => exact absurd h.symm hne
          | inr h => exact h
        exact checkGo_mem_result g htpos ps ihp hmem'

/-- Counterexample to C8: a malformed grid (nine rows, the last
truncated to eight cells) on which `check` returns `true`, not `false`. -/
theorem check_malformed_grid_counterexample :
    shape9 truncatedRowData = false
    ∧ SolutionService.check ⟨truncatedRowData⟩ = .ok true :=
  ⟨rfl, rfl⟩

/-- Claim C8 (amended): `check` never propagates an error: every
`TypeError` a cell lookup can throw inside it quotes a property `0`–`8`
and is caught, so `check` always returns a boolean.  A grid with fewer
than 9 rows always yields `false` (the first missing row's lookup throws
and is caught); however not every malformed grid yields `false` — a
nine-row grid with a truncated row can return `true`. -/
theorem check_total_and_missing_rows (g : GridSvc Nat) :
    (∃ b, SolutionService.check g = .ok b)
    ∧ (g.data.length < 9 → SolutionService.check g = .ok false) := by
  constructor
  · cases hrun : SolutionService.checkRun g with
    | ok b => exact ⟨b, by rw [SolutionService.check, hrun]⟩
    | error e =>
      have he : e < 9 := checkGo_error_lt g (iterateMatrix 9)
        (fun p hp => (mem_iterateMatrix.mp hp).2) e hrun
      refine ⟨false, ?_⟩
      rw [SolutionService.check, hrun]
      simp [notArrayErrorMsgMatches, he]
  · intro hlen
    have herr := compareRelated_missing_row g (fun a b _ => a == b)
    have hmem : (⟨g.data.length, 0⟩ : Pos) ∈ iterateMatrix 9 :=
      mem_iterateMatrix.mpr ⟨hlen, by show (0 : Nat) < 9; decide⟩
    have hres := checkGo_mem_result g herr (iterateMatrix 9)
      (fun p hp => (mem_iterateMatrix.mp hp).2) hmem
    cases hres with
    | inl h => rw [SolutionService.check, SolutionService.checkRun, h]
    | inr h =>
      obtain ⟨e, he, h⟩ := h
      rw [SolutionService.check, SolutionService.checkRun, h]
      simp [notArrayErrorMsgMatches, he]

/-- Witness for the amended C8 at a concrete five-row grid. -/
theorem check_total_and_missing_rows_witness :
    SolutionService.check ⟨validSolutionData.take 5⟩ = .ok false :=
  (check_total_and_missing_rows ⟨validSolutionData.take 5⟩).2 (by decide)

theorem notDigitStart_cons {c : Char} (h : c.isDigit = false) (cs : List Char) :
    notDigitStart (c :: cs) := by
  intro c' h'
  cases h'
  exact h

theorem digitsToNat_stop (acc : Nat) {cs : List Char} (h : notDigitStart cs) :
    digitsToNat acc cs = (acc, cs) := by
  cases cs with
  | nil => rfl
  | cons c cs' => simp [digitsToNat, h c rfl]

theorem encCell_digit {d : Nat} (hd : d ≤ 9) :
    encCell d = [Char.ofNat (48 + d)] := by
  interval_cases d <;> rfl

theorem parseJsonValue_digitChar (c : Char) (hws : isJsonWs c = false)
    (h1 : (c == '[') = false) (h2 : (c == lbraceChar) = false)
    (h3 : (c == '"') = false) (hdig : c.isDigit = true) {rest : List Char}
    (hrest : notDigitStart rest) (f : Nat) :
    parseJsonValue (f + 1) (c :: rest) = some (.num (c.toNat - 48), rest) := by
  simp [parseJsonValue, skipWs, hws, h1, h2, h3, hdig, digitsToNat,
    digitsToNat_stop _ hrest]

theorem parseJsonValue_digit {d : Nat} (hd : d ≤ 9) {rest : List Char}
    (hrest : notDigitStart rest) (f : Nat) :
    parseJsonValue (f + 1) (encCell d ++ rest) = some (.num d, rest) := by
  rw [encCell_digit hd, List.cons_append, List.nil_append]
  have h := parseJsonValue_digitChar (Char.ofNat (48 + d))
    (by interval_cases d <;> decide) (by interval_cases d <;> decide)
    (by interval_cases d <;> decide) (by interval_cases d <;> decide)
    (by interval_cases d <;> decide) hrest f
  have heq : (Char.ofNat (48 + d)).toNat - 48 = d := by
    interval_cases d <;> decide
  rw [heq] at h
  exact h

theorem parseJsonElemsNE_succ (fuel : Nat) (cs : List Char) :
    parseJsonElemsNE (fuel + 1) cs =
      match parseJsonValue fuel cs with
      | none => none
      | some (v, r1) =>
        match skipWs r1 with
        | ']' :: r2 => some ([v], r2)
        | ',' :: r2 =>
          match parseJsonElemsNE fuel r2 with
          | some (vs, r3) => some (v :: vs, r3)
          | none => none
        | _ => none := rfl

theorem parseJsonElemsNE_cells :
    ∀ (cells : List Nat) (f : Nat) (rest : List Char),
      cells ≠ [] → (∀ d ∈ cells, d ≤ 9) →
      parseJsonElemsNE (cells.length + f + 1) (encCells cells ++ ']' :: rest) =
        some (cells.map JsVal.num, rest)
  | [], _, _, hne, _ => absurd rfl hne
  | [d], f, rest, _, hd => by
    have hdig : d ≤ 9 := hd d (by simp)
    rw [show ([d] : List Nat).length + f + 1 = (f + 1) + 1 from by simp; omega,
      parseJsonElemsNE_succ,
      show encCells [d] = encCell d from rfl,
      parseJsonValue_digit hdig (notDigitStart_cons (by decide) rest) f]
    rfl
  | d :: d2 :: ds, f, rest, _, hd => by
    have hdig : d ≤ 9 := hd d (by simp)
    have hd2 : ∀ e ∈ d2 :: ds, e ≤ 9 := fun e he => hd e (List.mem_cons_of_mem d he)
    have ih := parseJsonElemsNE_cells (d2 :: ds) f rest (by simp) hd2
    rw [show (d :: d2 :: ds : List Nat).length + f + 1 =
        ((d2 :: ds : List Nat).length + f + 1) + 1 from by simp; omega,
      parseJsonElemsNE_succ,
      show encCells (d :: d2 :: ds) = encCell d ++ ',' :: encCells (d2 :: ds)
        from rfl,
      List.append_assoc, List.cons_append,
      parseJsonValue_digit hdig
        (notDigitStart_cons (by decide) (encCells (d2 :: ds) ++ ']' :: rest))
        ((d2 :: ds : List Nat).length + f)]
    trans (match parseJsonElemsNE ((d2 :: ds : List Nat).length + f + 1)
        (encCells (d2 :: ds) ++ ']' :: rest) with
      | some (vs, r3) => some (JsVal.num d :: vs, r3)
      | none => none)
    · rfl
    · rw [ih]
      rfl

theorem parseJsonValue_bracket (fuel : Nat) (cs : List Char) :
    parseJsonValue (fuel + 1) ('[' :: cs) =
      match parseJsonElems fuel cs with
      | some (vs, r) => some (.arr vs, r)
      | none => none := rfl

theorem parseJsonElems_succ (fuel : Nat) (cs : List Char) :
    parseJsonElems (fuel + 1) cs =
      match skipWs cs with
      | ']' :: rest => some ([], rest)
      | _ => parseJsonElemsNE fuel cs := rfl

theorem parseJsonElems_not_bracket (fuel : Nat) {c : Char}
    (hws : isJsonWs c = false) (hne : (c == ']') = false) (cs : List Char) :
    parseJsonElems (fuel + 1) (c :: cs) = parseJsonElemsNE fuel (c :: cs) := by
  have hskip : skipWs (c :: cs) = c :: cs := by simp [skipWs, hws]
  rw [parseJsonElems_succ, hskip]
  split
  · next r2 heq =>
    exfalso
    injection heq with h1 _
    subst h1
    simp at hne
  · rfl

theorem parseJsonValue_row :
    ∀ (r : List Nat) (f : Nat) {rest : List Char},
      r ≠ [] → (∀ d ∈ r, d ≤ 9) →
      parseJsonValue (r.length + 3 + f) (encRow r ++ rest) =
        some (.arr (r.map JsVal.num), rest)
  | [], _, _, hne, _ => absurd rfl hne
  | d :: ds, f, rest, _, hd => by
    have hdig : d ≤ 9 := hd d (by simp)
    obtain ⟨tail, htail⟩ :
        ∃ tail, encCells (d :: ds) ++ ']' :: rest = Char.ofNat (48 + d) :: tail := by
      cases ds with
      | nil =>
        refine ⟨']' :: rest, ?_⟩
        rw [show encCells [d] = encCell d from rfl, encCell_digit hdig]
        rfl
      | cons d2 ds' =>
        refine ⟨',' :: encCells (d2 :: ds') ++ ']' :: rest, ?_⟩
        rw [show encCells (d :: d2 :: ds') = encCell d ++ ',' :: encCells (d2 :: ds')
          from rfl, encCell_digit hdig]
        simp
    rw [show encRow (d :: ds) ++ rest = '[' :: (encCells (d :: ds) ++ ']' :: rest)
        from by simp [encRow],
      show (d :: ds : List Nat).length + 3 + f =
        ((d :: ds : List Nat).length + 2 + f) + 1 from by omega,
      parseJsonValue_bracket,
      show (d :: ds : List Nat).length + 2 + f =
        ((d :: ds : List Nat).length + 1 + f) + 1 from by omega,
      htail,
      parseJsonElems_not_bracket _ (by interval_cases d <;> decide)
        (by interval_cases d <;> decide) tail,
      ← htail,
      show (d :: ds : List Nat).length + 1 + f =
        (d :: ds : List Nat).length + f + 1 from by omega,
      parseJsonElemsNE_cells (d :: ds) f _ (by simp) hd]

theorem parseJsonElemsNE_rows :
    ∀ (rows : List (List Nat)) (f : Nat) (rest : List Char),
      rows ≠ [] → (∀ r ∈ rows, r.length = 9) →
      (∀ r ∈ rows, ∀ d ∈ r, d ≤ 9) →
      parseJsonElemsNE (13 * rows.length + f) (encRows rows ++ ']' :: rest) =
        some (rows.map fun r => JsVal.arr (r.map JsVal.num), rest)
  | [], _, _, hne, _, _ => absurd rfl hne
  | [r], f, rest, _, hlen, hd => by
    have hr9 : r.length = 9 := hlen r (by simp)
    have hrne : r ≠ [] := by
      intro hcontr
      rw [hcontr] at hr9
      cases hr9
    rw [show 13 * ([r] : List (List Nat)).length + f = (12 + f) + 1 from by
        simp; omega,
      parseJsonElemsNE_succ,
      show encRows [r] = encRow r from rfl,
      show (12 : Nat) + f = r.length + 3 + f from by omega,
      parseJsonValue_row r f hrne (hd r (by simp))]
    rfl
  | r :: r2 :: rs, f, rest, _, hlen, hd => by
    have hr9 : r.length = 9 := hlen r (by simp)
    have hrne : r ≠ [] := by
      intro hcontr
      rw [hcontr] at hr9
      cases hr9
    have hlen2 : ∀ s ∈ r2 :: rs, s.length = 9 :=
      fun s hs => hlen s (List.mem_cons_of_mem r hs)
    have hd2 : ∀ s ∈ r2 :: rs, ∀ d ∈ s, d ≤ 9 :=
      fun s hs => hd s (List.mem_cons_of_mem r hs)
    have ih := parseJsonElemsNE_rows (r2 :: rs) (12 + f) rest
      (by simp) hlen2 hd2
    rw [show 13 * (r :: r2 :: rs : List (List Nat)).length + f =
        (13 * (r2 :: rs : List (List Nat)).length + (12 + f)) + 1 from by
        simp; omega,
      parseJsonElemsNE_succ,
      show encRows (r :: r2 :: rs) = encRow r ++ ',' :: encRows (r2 :: rs)
        from rfl,
      List.append_assoc, List.cons_append,
      show 13 * (r2 :: rs : List (List Nat)).length + (12 + f) =
        r.length + 3 + (13 * (r2 :: rs : List (List Nat)).length + f) from by
        omega,
      parseJsonValue_row r (13 * (r2 :: rs : List (List Nat)).length + f) hrne
        (hd r (by simp)),
      show r.length + 3 + (13 * (r2 :: rs : List (List Nat)).length + f) =
        13 * (r2 :: rs : List (List Nat)).length + (12 + f) from by omega]
    trans (match parseJsonElemsNE
        (13 * (r2 :: rs : List (List Nat)).length + (12 + f))
        (encRows (r2 :: rs) ++ ']' :: rest) with
      | some (vs, r3) => some (JsVal.arr (r.map JsVal.num) :: vs, r3)
      | none => none)
    · rfl
    · rw [ih]
      rfl

theorem parseJsonValue_matrix (m : List (List Nat)) (f : Nat) {rest : List Char}
    (hne : m ≠ []) (hlen : ∀ r ∈ m, r.length = 9)
    (hd : ∀ r ∈ m, ∀ d ∈ r, d ≤ 9) :
    parseJsonValue (13 * m.length + 3 + f) ('[' :: (encRows m ++ ']' :: rest)) =
      some (matVal m, rest) := by
  match m, hne with
  | r :: rs, _ =>
    obtain ⟨tail, htail⟩ :
        ∃ tail, encRows (r :: rs) ++ ']' :: rest = '[' :: tail := by
      cases rs with
      | nil =>
        refine ⟨(encCells r ++ [']']) ++ ']' :: rest, ?_⟩
        rw [show encRows [r] = encRow r from rfl, encRow]
        simp
      | cons r2 rs' =>
        refine ⟨(encCells r ++ [']']) ++ ',' :: encRows (r2 :: rs') ++ ']' :: rest, ?_⟩
        rw [show encRows (r :: r2 :: rs') = encRow r ++ ',' :: encRows (r2 :: rs')
          from rfl, encRow]
        simp
    rw [show 13 * (r :: rs : List (List Nat)).length + 3 + f =
        (13 * (r :: rs : List (List Nat)).length + 2 + f) + 1 from by omega,
      parseJsonValue_bracket,
      show 13 * (r :: rs : List (List Nat)).length + 2 + f =
        (13 * (r :: rs : List (List Nat)).length + 1 + f) + 1 from by omega,
      htail,
      parseJsonElems_not_bracket _ (by decide) (by decide) tail,
      ← htail,
      show 13 * (r :: rs : List (List Nat)).length + 1 + f =
        13 * (r :: rs : List (List Nat)).length + (1 + f) from by omega,
      parseJsonElemsNE_rows (r :: rs) (1 + f) _ (by simp) hlen hd]
    rfl

theorem encCells_length :
    ∀ (r : List Nat), r ≠ [] → (∀ d ∈ r, d ≤ 9) →
      (encCells r).length + 1 = 2 * r.length
  | [], hne, _ => absurd rfl hne
  | [d], _, hd => by
    rw [show encCells [d] = encCell d from rfl, encCell_digit (hd d (by simp))]
    rfl
  | d :: d2 :: ds, _, hd => by
    have ih := encCells_length (d2 :: ds) (by simp)
      (fun e he => hd e (List.mem_cons_of_mem d he))
    rw [show encCells (d :: d2 :: ds) = encCell d ++ ',' :: encCells (d2 :: ds)
      from rfl, encCell_digit (hd d (by simp))]
    simp only [List.length_append, List.length_cons, List.length_singleton,
      List.length_nil] at *
    omega

theorem encRow_length (r : List Nat) (h9 : r.length = 9)
    (hd : ∀ d ∈ r, d ≤ 9) : (encRow r).length = 19 := by
  have hne : r ≠ [] := by
    intro hcontr
    rw [hcontr] at h9
    cases h9
  have h := encCells_length r hne hd
  rw [encRow]
  simp only [List.length_cons, List.length_append, List.length_singleton,
    List.length_nil] at *
  omega

theorem encRows_length :
    ∀ (rows : List (List Nat)), rows ≠ [] → (∀ r ∈ rows, r.length = 9) →
      (∀ r ∈ rows, ∀ d ∈ r, d ≤ 9) →
      (encRows rows).length + 1 = 20 * rows.length
  | [], hne, _, _ => absurd rfl hne
  | [r], _, hlen, hd => by
    rw [show encRows [r] = encRow r from rfl,
      encRow_length r (hlen r (by simp)) (hd r (by simp))]
    rfl
  | r :: r2 :: rs, _, hlen, hd => by
    have ih := encRows_length (r2 :: rs) (by simp)
      (fun s hs => hlen s (List.mem_cons_of_mem r hs))
      (fun s hs => hd s (List.mem_cons_of_mem r hs))
    rw [show encRows (r :: r2 :: rs) = encRow r ++ ',' :: encRows (r2 :: rs)
      from rfl]
    simp only [List.length_append, List.length_cons, List.length_nil] at *
    rw [encRow_length r (hlen r (by simp)) (hd r (by simp))]
    omega

/-- Claim C4: serialization round-trip without re-validation: for any
9×9 array of digits (no Sudoku constraint assumed), `fromString` of its
canonical JSON text succeeds and yields a solution wrapping exactly that
array as a JSON value, whose cell reads agree with the array at every
position. -/
theorem fromString_roundTrip (m : List (List Nat))
    (hshape : shape9 m = true) (hdig : ∀ r ∈ m, ∀ d ∈ r, d ≤ 9) :
    SolutionService.fromString (stringifyMatrix m) = .ok ⟨matVal m⟩
    ∧ ∀ p : Pos, jsCellGet (matVal m) p = (matGet m p.y p.x).map JsVal.num := by
  obtain ⟨hlen, hrows⟩ := shape9_iff.mp hshape
  have hne : m ≠ [] := by
    intro h
    rw [h] at hlen
    cases hlen
  constructor
  · have hRlen : (encRows m).length + 1 = 20 * m.length :=
      encRows_length m hne hrows hdig
    have hslen : (stringifyMatrix m).length = 181 := by
      show ('[' :: (encRows m ++ [']'])).length = 181
      simp only [List.length_cons, List.length_append, List.length_singleton,
        List.length_nil]
      omega
    have hparse : jsonParse (stringifyMatrix m) = some (matVal m) := by
      rw [jsonParse, hslen,
        show (stringifyMatrix m).data = '[' :: (encRows m ++ ']' :: []) from rfl,
        show (2 * 181 + 2 : Nat) = 13 * m.length + 3 + 244 from by omega,
        parseJsonValue_matrix m 244 hne hrows hdig]
      rfl
    rw [SolutionService.fromString, hparse]
  · intro p
    show (match (m.map fun r => JsVal.arr (r.map JsVal.num)).get? p.y with
        | some (JsVal.arr cells) => cells.get? p.x
        | _ => none) =
      ((m.get? p.y).bind fun row => row.get? p.x).map JsVal.num
    rw [List.get?_map]
    cases hy : m.get? p.y with
    | none => rfl
    | some r =>
      simp only [Option.map_some']
      rw [List.get?_map]
      rfl

/-- Witness for C4 at a concrete digit matrix. -/
theorem fromString_roundTrip_witness :
    SolutionService.fromString (stringifyMatrix validSolutionData) =
      .ok ⟨matVal validSolutionData⟩ :=
  (fromString_roundTrip validSolutionData (by decide) (by decide)).1

theorem matGet_shape9_some {v : List (List Nat)} (hs : shape9 v = true)
    {y x : Nat} (hy : y < 9) (hx : x < 9) : ∃ d, matGet v y x = some d :=
  shape9_get hs (p := ⟨y, x⟩) hy hx

theorem matSet_shape9 {v : List (List Nat)} {p : Pos} {num : Nat}
    (hs : shape9 v = true) (hy : p.y < 9) :
    shape9 (matSet v p num) = true := by
  obtain ⟨hlen, hrows⟩ := shape9_iff.mp hs
  obtain ⟨row, hrow⟩ : ∃ row, v.get? p.y = some row := by
    cases hr : v.get? p.y with
    | none => rw [List.get?_eq_none] at hr; omega
    | some row => exact ⟨row, rfl⟩
  rw [shape9_iff]
  refine ⟨by rw [matSet, List.length_set]; exact hlen, fun r hr => ?_⟩
  rw [matSet] at hr
  rcases List.mem_or_eq_of_mem_set hr with hmem | heq
  · exact hrows r hmem
  · have hgetD : v.getD p.y [] = row := by
      have hdef : v.getD p.y [] = (v.get? p.y).getD [] := rfl
      rw [hdef, hrow]
      rfl
    rw [heq, hgetD, List.length_set]
    exact hrows row (List.get?_mem hrow)

theorem matGet_matSet_self {v : List (List Nat)} {p : Pos} {num : Nat}
    (hs : shape9 v = true) (hy : p.y < 9) (hx : p.x < 9) :
    matGet (matSet v p num) p.y p.x = some num := by
  obtain ⟨hlen, hrows⟩ := shape9_iff.mp hs
  obtain ⟨row, hrow⟩ : ∃ row, v.get? p.y = some row := by
    cases hr : v.get? p.y with
    | none => rw [List.get?_eq_none] at hr; omega
    | some row => exact ⟨row, rfl⟩
  have hgetD : v.getD p.y [] = row := by
    have hdef : v.getD p.y [] = (v.get? p.y).getD [] := rfl
    rw [hdef, hrow]
    rfl
  have hrlen : row.length = 9 := hrows row (List.get?_mem hrow)
  obtain ⟨c, hc⟩ : ∃ c, row.get? p.x = some c := by
    cases hr : row.get? p.x with
    | none => rw [List.get?_eq_none] at hr; omega
    | some c => exact ⟨c, rfl⟩
  simp only [matGet, matSet, List.get?_set_eq, hrow, hgetD]
  show (row.set p.x num).get? p.x = some num
  rw [List.get?_set_eq, hc]
  rfl

theorem matGet_matSet_other {v : List (List Nat)} {p q : Pos} {num : Nat}
    (hne : q ≠ p) :
    matGet (matSet v p num) q.y q.x = matGet v q.y q.x := by
  by_cases hyy : q.y = p.y
  · have hxx : q.x ≠ p.x := by
      intro hc
      exact hne (by cases p; cases q; simp_all)
    simp only [matGet, matSet, hyy, List.get?_set_eq]
    cases hrow : v.get? p.y with
    | none => rfl
    | some row =>
      have hgetD : v.getD p.y [] = row := by
        have hdef : v.getD p.y [] = (v.get? p.y).getD [] := rfl
        rw [hdef, hrow]
        rfl
      show ((v.getD p.y []).set p.x num).get? q.x = row.get? q.x
      rw [hgetD]
      exact List.get?_set_ne _ _ (fun hc => hxx hc.symm)
  · simp only [matGet, matSet]
    rw [List.get?_set_ne _ _ (fun hc => hyy hc.symm)]

theorem cellIsSafe_spec {v : List (List Nat)} {num : Nat} {p : Pos}
    (h : SolutionService.cellIsSafe v num p = true) :
    matGet v p.y p.x = some 0
    ∧ ∀ i, i < 9 →
        matGet v p.y i ≠ some num ∧ matGet v i p.x ≠ some num ∧
        matGet v (boxRowOf i p.y) (boxColOf i p.x) ≠ some num := by
  rw [SolutionService.cellIsSafe, Bool.and_eq_true, List.all_eq_true] at h
  obtain ⟨h0, hall⟩ := h
  refine ⟨by simpa using h0, fun i hi => ?_⟩
  have h3 := hall i (List.mem_range.mpr hi)
  simp only [Bool.and_eq_true, Bool.not_eq_true', beq_eq_false_iff_ne] at h3
  exact ⟨h3.1.1, h3.1.2, h3.2⟩

theorem cellIsSafe_num_ne_zero {v : List (List Nat)} {num : Nat} {p : Pos}
    (hx : p.x < 9) (h : SolutionService.cellIsSafe v num p = true) :
    num ≠ 0 := by
  obtain ⟨h0, hscan⟩ := cellIsSafe_spec h
  intro hzero
  exact (hscan p.x hx).1 (by rw [h0, hzero])

theorem cellIsSafe_related_ne {v : List (List Nat)} {num : Nat} {p q : Pos}
    (hpy : p.y < 9) (hpx : p.x < 9) (hqy : q.y < 9) (hqx : q.x < 9)
    (hrel : PosSvc.areRelated p q = true)
    (h : SolutionService.cellIsSafe v num p = true) :
    matGet v q.y q.x ≠ some num := by
  obtain ⟨_, hscan⟩ := cellIsSafe_spec h
  rw [PosSvc.areRelated, Bool.or_eq_true, Bool.or_eq_true] at hrel
  rcases hrel with (hy | hx) | hbox
  · have hy' : p.y = q.y := by simpa using hy
    have := (hscan q.x hqx).1
    rwa [hy'] at this
  · have hx' : p.x = q.x := by simpa using hx
    have := (hscan q.y hqy).2.1
    rwa [hx'] at this
  · have hb : PosSvc.getBoxFromPos p = PosSvc.getBoxFromPos q := by
      simpa using hbox
    rw [PosSvc.getBoxFromPos, PosSvc.getBoxFromPos] at hb
    have hdiv : p.y / 3 = q.y / 3 ∧ p.x / 3 = q.x / 3 := by omega
    have hi : q.y % 3 * 3 + q.x % 3 < 9 := by omega
    have := (hscan (q.y % 3 * 3 + q.x % 3) hi).2.2
    have hrow : boxRowOf (q.y % 3 * 3 + q.x % 3) p.y = q.y := by
      rw [boxRowOf]
      omega
    have hcol : boxColOf (q.y % 3 * 3 + q.x % 3) p.x = q.x := by
      rw [boxColOf]
      omega
    rwa [hrow, hcol] at this

theorem matSet_preserves {v : List (List Nat)} {p : Pos} {num : Nat}
    (hs : shape9 v = true) (hy : p.y < 9) (hx : p.x < 9) (hnum : num ≤ 9)
    (hsafe : SolutionService.cellIsSafe v num p = true)
    (hnc : MatNoConflict v) (hbd : MatBounded v) :
    shape9 (matSet v p num) = true
    ∧ MatNoConflict (matSet v p num)
    ∧ MatBounded (matSet v p num) := by
  refine ⟨matSet_shape9 hs hy, ?_, ?_⟩
  · intro a b hay hax hby hbx hne hrel d hd ha
    by_cases hap : a = p
    · subst hap
      have hval : matGet (matSet v a num) a.y a.x = some num :=
        matGet_matSet_self hs hy hx
      rw [hval] at ha
      have hdnum : d = num := (Option.some.inj ha).symm
      subst hdnum
      rw [matGet_matSet_other hne.symm]
      exact cellIsSafe_related_ne hay hax hby hbx hrel hsafe
    · rw [matGet_matSet_other hap] at ha
      by_cases hbp : b = p
      · subst hbp
        rw [matGet_matSet_self hs hy hx]
        intro hcontr
        have hdnum : num = d := Option.some.inj hcontr
        subst hdnum
        exact cellIsSafe_related_ne hby hbx hay hax (areRelated_symm hrel) hsafe ha
      · rw [matGet_matSet_other hbp]
        exact hnc a b hay hax hby hbx hne hrel d hd ha
  · intro a hay hax
    by_cases hap : a = p
    · subst hap
      exact ⟨num, matGet_matSet_self hs hy hx, hnum⟩
    · rw [matGet_matSet_other hap]
      exact hbd a hay hax

theorem placeNums_preserves :
    ∀ (nums : List Nat) {v : List (List Nat)} {p : Pos},
      shape9 v = true → MatNoConflict v → MatBounded v →
      (∀ n ∈ nums, n ≤ 9) → p.y < 9 → p.x < 9 →
      shape9 (SolutionService.placeNums v nums p) = true
      ∧ MatNoConflict (SolutionService.placeNums v nums p)
      ∧ MatBounded (SolutionService.placeNums v nums p)
      ∧ (∀ q : Pos, q ≠ p →
          matGet (SolutionService.placeNums v nums p) q.y q.x = matGet v q.y q.x)
      ∧ (∀ d, d ≠ 0 → matGet v p.y p.x = some d →
          matGet (SolutionService.placeNums v nums p) p.y p.x = some d)
  | [], v, p, hs, hnc, hbd, _, _, _ =>
    ⟨hs, hnc, hbd, fun _ _ => rfl, fun _ _ h => h⟩
  | n :: ns, v, p, hs, hnc, hbd, hnums, hy, hx => by
    have hn9 : n ≤ 9 := hnums n (List.mem_cons_self n ns)
    have hns : ∀ e ∈ ns, e ≤ 9 := fun e he => hnums e (List.mem_cons_of_mem n he)
    have hstep : SolutionService.placeNums v (n :: ns) p =
        SolutionService.placeNums
          (if SolutionService.cellIsSafe v n p then matSet v p n else v) ns p := rfl
    by_cases hsafe : SolutionService.cellIsSafe v n p = true
    · obtain ⟨hs1, hnc1, hbd1⟩ := matSet_preserves hs hy hx hn9 hsafe hnc hbd
      obtain ⟨hs2, hnc2, hbd2, hother, hself⟩ :=
        placeNums_preserves ns hs1 hnc1 hbd1 hns hy hx
      rw [hstep, if_pos hsafe]
      refine ⟨hs2, hnc2, hbd2, fun q hq => ?_, fun d hd hv => ?_⟩
      · rw [hother q hq, matGet_matSet_other hq]
      · exfalso
        have h0 := (cellIsSafe_spec hsafe).1
        rw [h0] at hv
        exact hd (Option.some.inj hv).symm
    · obtain ⟨hs2, hnc2, hbd2, hother, hself⟩ :=
        placeNums_preserves ns hs hnc hbd hns hy hx
      rw [hstep, if_neg hsafe]
      exact ⟨hs2, hnc2, hbd2, hother, hself⟩

theorem innerGo_props (draws : Nat → List Nat)
    (hdraws : ∀ t, ∀ n ∈ draws t, n ≤ 9) (i : Nat) (hi : i < 9) :
    ∀ (fuel : Nat) (v : List (List Nat)) (j k : Nat)
      (v' : List (List Nat)) (k' : Nat),
      fuel = 9 - j → i ≤ j →
      shape9 v = true → MatNoConflict v → MatBounded v →
      SolutionService.innerGo draws i fuel v j k = .ok (v', k') →
      shape9 v' = true ∧ MatNoConflict v' ∧ MatBounded v'
      ∧ (∀ q : Pos, ∀ d, d ≠ 0 → matGet v q.y q.x = some d →
          matGet v' q.y q.x = some d)
      ∧ (∀ jj, j ≤ jj → jj < 9 →
          (∃ d, d ≠ 0 ∧ matGet v' i jj = some d) ∧
          (∃ d, d ≠ 0 ∧ matGet v' jj i = some d))
  | 0, v, j, k, v', k', hfuel, hij, hs, hnc, hbd, hrun => by
    simp only [SolutionService.innerGo] at hrun
    obtain ⟨hv, hk⟩ := Prod.mk.injEq _ _ _ _ |>.mp (Except.ok.inj hrun)
    subst hv
    exact ⟨hs, hnc, hbd, fun q d hd h => h, fun jj hjj hjj9 => by omega⟩
  | fuel + 1, v, j, k, v', k', hfuel, hij, hs, hnc, hbd, hrun => by
    have hj9 : j < 9 := by omega
    simp only [SolutionService.innerGo] at hrun
    have hnums : ∀ n ∈ draws k, n ≤ 9 := hdraws k
    have hnumsRev : ∀ n ∈ (draws k).reverse, n ≤ 9 :=
      fun n hn => hdraws k n (List.mem_reverse.mp hn)
    obtain ⟨hs1, hnc1, hbd1, hother1, hself1⟩ :=
      placeNums_preserves (p := ⟨i, j⟩) (draws k) hs hnc hbd hnums hi hj9
    obtain ⟨hs2, hnc2, hbd2, hother2, hself2⟩ :=
      placeNums_preserves (p := ⟨j, i⟩) ((draws k).reverse) hs1 hnc1 hbd1
        hnumsRev hj9 hi
    have hmono12 : ∀ q : Pos, ∀ d, d ≠ 0 → matGet v q.y q.x = some d →
        matGet (SolutionService.placeNums
          (SolutionService.placeNums v (draws k) ⟨i, j⟩)
          ((draws k).reverse) ⟨j, i⟩) q.y q.x = some d := by
      intro q d hd hq
      have h1 : matGet (SolutionService.placeNums v (draws k) ⟨i, j⟩) q.y q.x =
          some d := by
        by_cases hqp : q = ⟨i, j⟩
        · subst hqp
          exact hself1 d hd hq
        · rw [hother1 q hqp]
          exact hq
      by_cases hqp : q = ⟨j, i⟩
      · subst hqp
        exact hself2 d hd h1
      · rw [hother2 q hqp]
        exact h1
    by_cases hguard :
        (matGet (SolutionService.placeNums
            (SolutionService.placeNums v (draws k) ⟨i, j⟩)
            ((draws k).reverse) ⟨j, i⟩) i j == some 0
          || matGet (SolutionService.placeNums
            (SolutionService.placeNums v (draws k) ⟨i, j⟩)
            ((draws k).reverse) ⟨j, i⟩) j i == some 0) = true
    · rw [if_pos hguard] at hrun
      exact Except.noConfusion hrun
    · rw [if_neg hguard] at hrun
      have hguard' := hguard
      simp only [Bool.or_eq_true, not_or, beq_iff_eq] at hguard'
      obtain ⟨hij0, hji0⟩ := hguard'
      obtain ⟨dij, hdij, hdij9⟩ := hbd2 ⟨i, j⟩ hi hj9
      obtain ⟨dji, hdji, hdji9⟩ := hbd2 ⟨j, i⟩ hj9 hi
      have hdij0 : dij ≠ 0 := fun h => hij0 (by rw [← h]; exact hdij)
      have hdji0 : dji ≠ 0 := fun h => hji0 (by rw [← h]; exact hdji)
      obtain ⟨hs', hnc', hbd', hmono', hfill'⟩ :=
        innerGo_props draws hdraws i hi fuel _ (j + 1) (k + 1) v' k'
          (by omega) (by omega) hs2 hnc2 hbd2 hrun
      refine ⟨hs', hnc', hbd', ?_, ?_⟩
      · intro q d hd hq
        exact hmono' q d hd (hmono12 q d hd hq)
      · intro jj hjj hjj9
        rcases Nat.eq_or_lt_of_le hjj with heq | hlt
        · subst heq
          exact ⟨⟨dij, hdij0, hmono' ⟨i, j⟩ dij hdij0 hdij⟩,
            ⟨dji, hdji0, hmono' ⟨j, i⟩ dji hdji0 hdji⟩⟩
        · exact hfill' jj (by omega) hjj9

theorem outerGo_props (draws : Nat → List Nat)
    (hdraws : ∀ t, ∀ n ∈ draws t, n ≤ 9) :
    ∀ (fuel : Nat) (v : List (List Nat)) (i k : Nat) (v' : List (List Nat)),
      fuel = 9 - i → i ≤ 9 →
      shape9 v = true → MatNoConflict v → MatBounded v →
      (∀ p : Pos, p.y < 9 → p.x < 9 → min p.y p.x < i →
        ∃ d, d ≠ 0 ∧ matGet v p.y p.x = some d) →
      SolutionService.outerGo draws fuel v i k = .ok v' →
      shape9 v' = true ∧ MatNoConflict v' ∧ MatBounded v'
      ∧ (∀ p : Pos, p.y < 9 → p.x < 9 →
          ∃ d, d ≠ 0 ∧ matGet v' p.y p.x = some d)
  | 0, v, i, k, v', hfuel, hi9, hs, hnc, hbd, hfill, hrun => by
    simp only [SolutionService.outerGo] at hrun
    cases hrun
    exact ⟨hs, hnc, hbd, fun p hpy hpx => hfill p hpy hpx (by omega)⟩
  | fuel + 1, v, i, k, v', hfuel, hi9, hs, hnc, hbd, hfill, hrun => by
    have hi : i < 9 := by omega
    simp only [SolutionService.outerGo] at hrun
    cases hinner : SolutionService.innerGo draws i (9 - i) v i k with
    | error k1 =>
      rw [hinner] at hrun
      exact Except.noConfusion hrun
    | ok r =>
      obtain ⟨v1, k1⟩ := r
      rw [hinner] at hrun
      obtain ⟨hs1, hnc1, hbd1, hmono1, hfill1⟩ :=
        innerGo_props draws hdraws i hi (9 - i) v i k v1 k1 rfl (Nat.le_refl i)
          hs hnc hbd hinner
      have hfill' : ∀ p : Pos, p.y < 9 → p.x < 9 → min p.y p.x < i + 1 →
          ∃ d, d ≠ 0 ∧ matGet v1 p.y p.x = some d := by
        intro p hpy hpx hmin
        by_cases hlow : min p.y p.x < i
        · obtain ⟨d, hd0, hd⟩ := hfill p hpy hpx hlow
          exact ⟨d, hd0, hmono1 p d hd0 hd⟩
        · have hminEq : min p.y p.x = i := by omega
          by_cases hcase : p.y = i
          · have hxi : i ≤ p.x := by omega
            have := (hfill1 p.x hxi hpx).1
            rw [← hcase] at this
            exact this
          · have hyi : p.x = i := by omega
            have hiy : i ≤ p.y := by omega
            have := (hfill1 p.y hiy hpy).2
            rw [← hyi] at this
            exact this
      exact outerGo_props draws hdraws fuel v1 (i + 1) k1 v' (by omega)
        (by omega) hs1 hnc1 hbd1 hfill' hrun

theorem fillSolution_props (draws : Nat → List Nat)
    (hdraws : ∀ t, ∀ n ∈ draws t, n ≤ 9) :
    ∀ (fuel k : Nat) (v : List (List Nat)),
      SolutionService.fillSolution draws fuel k = some v →
      shape9 v = true ∧ MatNoConflict v ∧ MatBounded v
      ∧ (∀ p : Pos, p.y < 9 → p.x < 9 →
          ∃ d, d ≠ 0 ∧ matGet v p.y p.x = some d)
  | 0, k, v, hrun => Option.noConfusion hrun
  | fuel + 1, k, v, hrun => by
    have hempty : ∀ y x : Nat, y < 9 → x < 9 → matGet emptyMat y x = some 0 := by
      intro y x hy hx
      interval_cases y <;> interval_cases x <;> rfl
    simp only [SolutionService.fillSolution] at hrun
    cases houter : SolutionService.outerGo draws 9 emptyMat 0 k with
    | ok w =>
      rw [houter] at hrun
      have hvw : w = v := Option.some.inj hrun
      subst hvw
      refine outerGo_props draws hdraws 9 emptyMat 0 k w rfl (by omega)
        (by decide) ?_ ?_ (fun p hpy hpx hmin => by omega) houter
      · intro a b hay hax hby hbx hne hrel d hd ha
        rw [hempty a.y a.x hay hax] at ha
        exact absurd (Option.some.inj ha).symm hd
      · intro a hay hax
        exact ⟨0, hempty a.y a.x hay hax, by omega⟩
    | error k1 =>
      rw [houter] at hrun
      exact fillSolution_props draws hdraws fuel k1 v hrun

theorem checkGo_all_ok_false (g : GridSvc Nat) :
    ∀ ps : List Pos,
      (∀ p ∈ ps, g.compareRelated p (fun a b _ => a == b) = .ok false) →
      SolutionService.checkGo g ps = .ok true
  | [], _ => rfl
  | p :: ps, h => by
    rw [SolutionService.checkGo, h p (List.mem_cons_self p ps)]
    exact checkGo_all_ok_false g ps (fun q hq => h q (List.mem_cons_of_mem p hq))

theorem check_of_valid (v : List (List Nat)) (hs : shape9 v = true)
    (hfull : ∀ p : Pos, p.y < 9 → p.x < 9 →
      ∃ d, d ≠ 0 ∧ matGet v p.y p.x = some d)
    (hnc : MatNoConflict v) :
    SolutionService.check ⟨v⟩ = .ok true := by
  have hcr : ∀ p : Pos, p ∈ iterateMatrix 9 →
      GridSvc.compareRelated ⟨v⟩ p (fun a b _ => a == b) = .ok false := by
    intro p hp
    obtain ⟨hpy, hpx⟩ := mem_iterateMatrix.mp hp
    have heq := (compareRelatedGo_eq (⟨v⟩ : GridSvc Nat) p (fun a b _ => a == b)
      hs hpy (iterateMatrix 9) (fun q hq => (mem_iterateMatrix.mp hq).1)).1
    have hx1 : (if p.x = 0 then 1 else 0) < 9 := by
      by_cases h0 : p.x = 0 <;> simp [h0]
    have hx2 : (if p.x = 0 then 1 else 0) ≠ p.x := by
      by_cases h0 : p.x = 0 <;> simp [h0] <;> omega
    obtain ⟨d1, hd1ne, hd1⟩ := hfull p hpy hpx
    obtain ⟨d2, hd2ne, hd2⟩ :=
      hfull ⟨p.y, if p.x = 0 then 1 else 0⟩ hpy hx1
    have hqne : p ≠ (⟨p.y, if p.x = 0 then 1 else 0⟩ : Pos) := by
      intro hc
      have := congrArg Pos.x hc
      exact hx2 this.symm
    have hrelq : PosSvc.areRelated p ⟨p.y, if p.x = 0 then 1 else 0⟩ = true := by
      simp [PosSvc.areRelated]
    have hne12 : some d2 ≠ some d1 := by
      have hthis := hnc p ⟨p.y, if p.x = 0 then 1 else 0⟩ hpy hpx hpy hx1 hqne
        hrelq d1 hd1ne hd1
      rw [hd2] at hthis
      exact hthis
    have hPfalse :
        ((iterateMatrix 9).filter fun q => PosSvc.areRelated p q).all
          (fun q => (GridSvc.cellAt ⟨v⟩ p == GridSvc.cellAt ⟨v⟩ q)) = false := by
      rw [List.all_eq_false]
      refine ⟨⟨p.y, if p.x = 0 then 1 else 0⟩, ?_, ?_⟩
      · rw [List.mem_filter]
        exact ⟨mem_iterateMatrix.mpr ⟨hpy, hx1⟩, hrelq⟩
      · have hcell1 : GridSvc.cellAt (⟨v⟩ : GridSvc Nat) p = some d1 := hd1
        have hcell2 : GridSvc.cellAt (⟨v⟩ : GridSvc Nat)
            ⟨p.y, if p.x = 0 then 1 else 0⟩ = some d2 := hd2
        rw [hcell1, hcell2]
        simp only [Bool.not_eq_true, beq_eq_false_iff_ne]
        exact fun hc => hne12 hc.symm
    rw [GridSvc.compareRelated, heq, hPfalse]
  have hgo : SolutionService.checkRun ⟨v⟩ = .ok true :=
    checkGo_all_ok_false ⟨v⟩ (iterateMatrix 9) hcr
  rw [SolutionService.check, hgo]

/-- Claim C2: generator postcondition: whenever `#fillSolution`
terminates (under any stream of candidate orderings drawn from the
digits 1–9, and any restart budget), the produced grid is a well-shaped
9×9 matrix whose 81 cells hold digits 1–9, no two distinct related cells
share a digit, and `check` applied to the resulting grid returns
`true`. -/
theorem fillSolution_postcondition (draws : Nat → List Nat) (fuel k : Nat)
    (v : List (List Nat))
    (hdraws : ∀ t, ∀ n ∈ draws t, 1 ≤ n ∧ n ≤ 9)
    (hrun : SolutionService.fillSolution draws fuel k = some v) :
    shape9 v = true
    ∧ (∀ p : Pos, p.y < 9 → p.x < 9 →
        ∃ d, matGet v p.y p.x = some d ∧ 1 ≤ d ∧ d ≤ 9)
    ∧ (∀ p q : Pos, p.y < 9 → p.x < 9 → q.y < 9 → q.x < 9 → p ≠ q →
        PosSvc.areRelated p q = true → matGet v p.y p.x ≠ matGet v q.y q.x)
    ∧ SolutionService.check ⟨v⟩ = .ok true := by
  have hdraws' : ∀ t, ∀ n ∈ draws t, n ≤ 9 := fun t n hn => (hdraws t n hn).2
  obtain ⟨hs, hnc, hbd, hfull⟩ := fillSolution_props draws hdraws' fuel k v hrun
  refine ⟨hs, ?_, ?_, check_of_valid v hs hfull hnc⟩
  · intro p hpy hpx
    obtain ⟨d, hd0, hd⟩ := hfull p hpy hpx
    obtain ⟨d', hd', hd'9⟩ := hbd p hpy hpx
    have hdd : d = d' := by
      rw [hd] at hd'
      exact Option.some.inj hd'
    subst hdd
    exact ⟨d, hd, by omega, hd'9⟩
  · intro p q hpy hpx hqy hqx hne hrel hcontr
    obtain ⟨d, hd0, hd⟩ := hfull p hpy hpx
    have hq : matGet v q.y q.x = some d := by
      rw [← hcontr]
      exact hd
    exact hnc p q hpy hpx hqy hqx hne hrel d hd0 hd hq

/-- Witness for C2: the concrete draw stream completes in one pass
and produces `validSolutionData`, on which `check` returns `true`. -/
theorem fillSolution_postcondition_witness :
    SolutionService.check ⟨validSolutionData⟩ = .ok true := by
  have hdraws : ∀ t, ∀ n ∈ witnessDrawsFn t, 1 ≤ n ∧ n ≤ 9 := by
    intro t n hn
    rw [witnessDrawsFn] at hn
    have hdef : witnessDraws.getD t [] = (witnessDraws.get? t).getD [] := rfl
    rw [hdef] at hn
    cases hget : witnessDraws.get? t with
    | none =>
      rw [hget] at hn
      exact absurd hn (List.not_mem_nil n)
    | some l =>
      rw [hget] at hn
      have hl : l ∈ witnessDraws := List.get?_mem hget
      have hall : ∀ l ∈ witnessDraws, ∀ n ∈ l, 1 ≤ n ∧ n ≤ 9 := by decide
      exact hall l hl n hn
  exact (fillSolution_postcondition witnessDrawsFn 1 0 validSolutionData
    hdraws rfl).2.2.2
